import Mathlib

/-!
Shallow embedding of the content-acquisition workers of src/vi.py.

The file models the download / hash / deduplication pipeline of
DownloadWorker, InstagramDownloadWorker and TikTokDownloadWorker:
the persisted hash index (load_hashes, save_hashes), the per-post
dedup loop of InstagramDownloadWorker.run (lines 245-296), the
rate-limit handler (handle_rate_limit, lines 318-326), the finally
block that emits the terminal signals (lines 308-316 and 489-492),
the TikTok search retry loop (lines 383-415), TikTok download_video
(lines 334-361), and the attribute environment of the TikTok worker
(lines 328-332).

Environment-provided data (which posts a search returns, which files
instaloader writes for a post, the md5 digest of the fetched bytes,
whether the network fetch succeeds, the momentary value of the
cancellation flag at each check point) are inputs of the modelled
functions.  Progress/error/finished signal emissions are modelled as
an event list; file-system mutations additionally as an operation
trace.  Wall-clock timestamps, logging calls, makedirs and the Qt
session plumbing are not modelled; time.sleep calls are recorded as a
list of slept durations.
-/

namespace Instatik

/-- A file written into the download directory by download_post for one post
(lines 262-264): its on-disk name (matching the date-shortcode pattern), the
md5 hex digest of its bytes as computed by calculate_hash (lines 103-110),
and its extension as returned by os.path.splitext, dot included (line 271). -/
structure FetchedFile where
  name : String
  hash : String
  ext  : String
deriving DecidableEq, Repr

/-- A search-result post: its shortcode, its is_video flag, whether
download_post succeeds for it (the try/except of lines 256-260), and the
files download_post writes. -/
structure Post where
  shortcode : String
  is_video  : Bool
  fetch_ok  : Bool
  files     : List FetchedFile
deriving DecidableEq, Repr

/-- One value of the downloaded_hashes mapping (lines 275-280).  The
wall-clock date field of the source record is omitted from the model. -/
structure HashRecord where
  shortcode : String
  typ       : String
  file_path : String
deriving DecidableEq, Repr

/-- self.downloaded_hashes: a json object mapping md5 hex digest to a record,
modelled as an association list in insertion order. -/
abbrev HashIdx := List (String × HashRecord)

/-- Key lookup in downloaded_hashes, as used by the membership test
`file_hash not in self.downloaded_hashes` (line 270). -/
def lookupHash : HashIdx → String → Option HashRecord
  | [], _ => none
  | e :: es, h => if e.1 = h then some e.2 else lookupHash es h

/-- A file present in the download directory: either still under the name
download_post gave it, or renamed to its deduplicated name (lines 271-273). -/
inductive DiskFile
  | fetched (name : String)
  | stored (shortcode : String) (hash : String) (ext : String)
deriving DecidableEq, Repr

/-- The deduplicated file name built at line 271 of
InstagramDownloadWorker.run: the literal prefix instagram_, the shortcode,
the first 8 hex characters of the md5 digest, then the original extension. -/
def instaNewName (sc h ext : String) : String :=
  "instagram_" ++ sc ++ "_" ++ h.take 8 ++ ext

/-- The deduplicated file name built at line 448 of TikTokDownloadWorker.run:
textually identical to line 271, so the prefix is the literal string
instagram_ there as well, not tiktok_. -/
def tiktokNewName (sc h ext : String) : String :=
  "instagram_" ++ sc ++ "_" ++ h.take 8 ++ ext

/-- The on-disk name of a modelled directory entry. -/
def DiskFile.name : DiskFile → String
  | DiskFile.fetched n => n
  | DiskFile.stored sc h ext => instaNewName sc h ext

/-- os.remove, and the removal half of os.rename, on the modelled directory
(removes the first matching entry, a no-op when the entry is absent). -/
def eraseFile : List DiskFile → DiskFile → List DiskFile
  | [], _ => []
  | y :: ys, x => if y = x then ys else y :: eraseFile ys x

/-- Signal emissions of a worker, one constructor per distinct source call
site.  The Turkish message strings of the source are kept only where a claim
mentions them; the constructor comments give the source line. -/
inductive Event
  | searching (keyword : String)      -- progress line 224: arama yapiliyor
  | searchFound (msg : String)        -- progress lines 233/236/239 (search phase)
  | downloadingPost (shortcode : String) -- progress line 252: Indiriliyor
  | downloadedMsg (newName : String)  -- progress line 283: Indirilen
  | dupSkipped (shortcode : String)   -- progress line 286: Tekrar eden icerik atlandi
  | summary (n : Nat)                 -- progress line 312: Toplam n icerik indirildi
  | noDownloads                       -- progress line 314: Indirilen icerik bulunamadi
  | rateLimitWait (delay : Nat) (retryIdx : Nat) -- progress line 324
  | downloadProgress (n : Nat)        -- download_progress.emit, line 289
  | noResultsError                    -- error line 241: Sonuc bulunamadi
  | generalError (msg : String)       -- error line 306 / 487: Genel hata
  | finished                          -- finished.emit, line 316 / 492
  | loginRequired                     -- login_required.emit, line 221 / 304
deriving DecidableEq, Repr

/-- File-system / index mutations performed by the dedup loop, in program
order: os.rename (line 273), dict insert (line 275), os.remove (line 285),
save_hashes flushing the index file (line 288). -/
inductive Op
  | renameFile (oldName newName : String)
  | insertHash (h : String)
  | removeFile (name : String)
  | flushIdx
deriving DecidableEq, Repr

/-- Worker state: the in-memory index self.downloaded_hashes, the persisted
content of the hash_file on disk, the download directory, the emitted
events, the mutation trace, the total_downloaded counter and the recorded
time.sleep durations. -/
structure WState where
  idx : HashIdx
  persisted : HashIdx
  disk : List DiskFile
  events : List Event
  ops : List Op
  total_downloaded : Nat
  sleeps : List Nat
deriving DecidableEq, Repr

def isFinishedEv : Event → Bool
  | Event.finished => true
  | _ => false

/-- True for the two summary progress lines of the finally block (lines
311-314): either the count of downloaded items or the nothing-downloaded
message. -/
def isSummaryEv : Event → Bool
  | Event.summary _ => true
  | Event.noDownloads => true
  | _ => false

def isDupEv : Event → Bool
  | Event.dupSkipped _ => true
  | _ => false

def isErrorEv : Event → Bool
  | Event.generalError _ => true
  | Event.noResultsError => true
  | _ => false

def isInsertOp : Op → Bool
  | Op.insertHash _ => true
  | _ => false

def isRenameOp : Op → Bool
  | Op.renameFile _ _ => true
  | _ => false

def isFlushOp : Op → Bool
  | Op.flushIdx => true
  | _ => false

/-- A continuation byte of a UTF-8 sequence: 0x80 to 0xBF. -/
def contByte (c : Nat) : Bool :=
  decide (0x80 ≤ c) && decide (c ≤ 0xBF)

/-- Strict UTF-8 validity of a byte sequence, as enforced by the CPython
strict codec that text-mode open with encoding utf-8 uses: rejects stray
continuation bytes and the overlong leads 0xC0/0xC1, overlong 3- and
4-byte encodings (0xE0 needs a first continuation of at least 0xA0, 0xF0
of at least 0x90), surrogates (0xED caps its first continuation at 0x9F),
code points above 0x10FFFF (0xF4 caps its first continuation at 0x8F,
leads above 0xF4 are invalid), and truncated sequences. -/
def utf8Valid : List Nat → Bool
  | [] => true
  | b :: rest =>
    if b < 0x80 then utf8Valid rest
    else if b < 0xC2 then false
    else if b ≤ 0xDF then
      match rest with
      | c1 :: rest2 => contByte c1 && utf8Valid rest2
      | [] => false
    else if b ≤ 0xEF then
      match rest with
      | c1 :: c2 :: rest2 =>
        (if b = 0xE0 then decide (0xA0 ≤ c1) && decide (c1 ≤ 0xBF)
         else if b = 0xED then decide (0x80 ≤ c1) && decide (c1 ≤ 0x9F)
         else contByte c1) && contByte c2 && utf8Valid rest2
      | _ => false
    else if b ≤ 0xF4 then
      match rest with
      | c1 :: c2 :: c3 :: rest2 =>
        (if b = 0xF0 then decide (0x90 ≤ c1) && decide (c1 ≤ 0xBF)
         else if b = 0xF4 then decide (0x80 ≤ c1) && decide (c1 ≤ 0x8F)
         else contByte c1) && contByte c2 && contByte c3 && utf8Valid rest2
      | _ => false
    else false

/-- Outcome of DownloadWorker.load_hashes: a returned mapping, or an
exception escaping the method (the except clause of line 95 names only
json.JSONDecodeError, so a UnicodeDecodeError is not caught). -/
inductive LoadOutcome
  | ret (m : HashIdx)
  | exn
deriving DecidableEq, Repr

/-- DownloadWorker.load_hashes (lines 90-97).  The index file is opened in
text mode with encoding utf-8, so json.load first decodes the raw bytes
(content): content that is not valid UTF-8 raises UnicodeDecodeError,
which the except clause (json.JSONDecodeError only) does not catch — the
exception escapes the method and its caller, the worker constructor
(LoadOutcome.exn).  For content that does decode, parsed is the outcome of
the json parse of the decoded text: none models json.JSONDecodeError,
which is caught and returns the empty mapping; a missing file also returns
the empty mapping. -/
def load_hashes (fileExists : Bool) (content : List Nat)
    (parsed : Option HashIdx) : LoadOutcome :=
  if fileExists then
    if utf8Valid content then
      match parsed with
      | some m => LoadOutcome.ret m
      | none => LoadOutcome.ret []
    else LoadOutcome.exn
  else LoadOutcome.ret []

/-- The mapping of a normal load; the exn case stands for no mapping at
all (the constructor call below never reaches it when it is applied to
content that decodes). -/
def loadedIdx : LoadOutcome → HashIdx
  | LoadOutcome.ret m => m
  | LoadOutcome.exn => []

/-- DownloadWorker.save_hashes (lines 99-101): json.dump of the in-memory
mapping over the index file. -/
def save_hashes (s : WState) : WState :=
  { s with persisted := s.idx, ops := s.ops ++ [Op.flushIdx] }

/-- The per-file body of the dedup loop, lines 266-287 of
InstagramDownloadWorker.run (lines 442-466 of TikTokDownloadWorker.run are
the same logic): a fresh hash renames the fetched file to its deduplicated
name and inserts a record; a known hash deletes the fetched file. -/
def processFile (sc : String) (isVideo : Bool) (s : WState) (f : FetchedFile) : WState :=
  if (lookupHash s.idx f.hash).isNone then
    let newName := instaNewName sc f.hash f.ext
    { s with
      disk := DiskFile.stored sc f.hash f.ext :: eraseFile s.disk (DiskFile.fetched f.name),
      idx := (f.hash, ⟨sc, if isVideo then "video" else "photo", newName⟩) :: s.idx,
      total_downloaded := s.total_downloaded + 1,
      events := s.events ++ [Event.downloadedMsg newName],
      ops := s.ops ++ [Op.renameFile f.name newName, Op.insertHash f.hash] }
  else
    { s with
      disk := eraseFile s.disk (DiskFile.fetched f.name),
      events := s.events ++ [Event.dupSkipped sc],
      ops := s.ops ++ [Op.removeFile f.name] }

/-- The kind filter of line 251: (is_video and download_videos) or
(not is_video and download_photos). -/
def postWanted (wantV wantP : Bool) (p : Post) : Bool :=
  (p.is_video && wantV) || (!p.is_video && wantP)

/-- The per-post body of the download loop, lines 249-291 of
InstagramDownloadWorker.run: kind filter, download_post (adding the fetched
files to the directory; on failure the except of lines 258-260 continues
with the next post), the per-file dedup fold, save_hashes, the
download_progress emission, and the time.sleep(2) of line 291. -/
def processPost (wantV wantP : Bool) (s : WState) (p : Post) : WState :=
  if postWanted wantV wantP p then
    let s1 := { s with events := s.events ++ [Event.downloadingPost p.shortcode] }
    if p.fetch_ok then
      let s2 := { s1 with disk := p.files.map (fun f => DiskFile.fetched f.name) ++ s1.disk }
      let s3 := p.files.foldl (processFile p.shortcode p.is_video) s2
      let s4 := save_hashes s3
      let s5 := { s4 with events := s4.events ++ [Event.downloadProgress s4.total_downloaded] }
      { s5 with sleeps := s5.sleeps ++ [2] }
    else
      s1
  else
    { s with sleeps := s.sleeps ++ [2] }

/-- The `for post in posts` loop of lines 245-296 with the cooperative
cancellation check of line 246; running i is the value of self.is_running
observed at the check preceding post number i. -/
def instaPostsLoop (wantV wantP : Bool) (running : Nat → Bool) :
    Nat → WState → List Post → WState
  | _, s, [] => s
  | i, s, p :: rest =>
    if running i then
      instaPostsLoop wantV wantP running (i + 1) (processPost wantV wantP s p) rest
    else s

/-- The body of InstagramDownloadWorker.handle_rate_limit (lines 318-326):
`for retry in range(maxRetries)` with the is_running check, the wait
notification, time.sleep(delay) and delay doubling; fuel is the number of
remaining iterations. -/
def handleRateLimitLoop (running : Nat → Bool) :
    Nat → Nat → Nat → WState → WState
  | _, _, 0, s => s
  | retryIdx, delay, fuel + 1, s =>
    if running retryIdx then
      handleRateLimitLoop running (retryIdx + 1) (delay * 2) fuel
        { s with events := s.events ++ [Event.rateLimitWait delay retryIdx],
                 sleeps := s.sleeps ++ [delay] }
    else s

/-- InstagramDownloadWorker.handle_rate_limit: delay starts at 60 and the
loop runs at most 3 times (so the slept delays are 60, 120, 240). -/
def handle_rate_limit (running : Nat → Bool) (s : WState) : WState :=
  handleRateLimitLoop running 0 60 3 s

/-- The finally block of InstagramDownloadWorker.run (lines 308-316): a
summary progress line (count if positive, otherwise the nothing-downloaded
message) followed by finished.emit.  session.close() is not modelled. -/
def instaFinally (s : WState) : WState :=
  let s1 :=
    if s.total_downloaded > 0 then
      { s with events := s.events ++ [Event.summary s.total_downloaded] }
    else
      { s with events := s.events ++ [Event.noDownloads] }
  { s1 with events := s1.events ++ [Event.finished] }

/-- Outcome of the search phase of InstagramDownloadWorker.run (lines
227-242), as provided by the environment: a found result list (the search
progress strings abstracted into foundMsg), a falsy fallback result (line
241), a TooManyRequestsException escaping to line 298, a
LoginRequiredException escaping to line 302, or any other exception
escaping to line 305. -/
inductive SearchResult
  | found (foundMsg : String) (posts : List Post)
  | noResults
  | tooMany
  | loginExpired
  | otherErr (msg : String)
deriving Repr

/-- InstagramDownloadWorker.run (lines 216-316): the local counter
total_downloaded = 0 of line 217, the login check of line 220, the
searching progress line, the search-phase dispatch, the download loop, and
the exception handlers of lines 298-307, every path ending in the finally
block. -/
def instaRun (keyword : String) (loggedIn : Bool) (search : SearchResult)
    (wantV wantP : Bool) (running : Nat → Bool) (st : WState) : WState :=
  let s0 := { st with total_downloaded := 0 }
  if loggedIn then
    let s1 := { s0 with events := s0.events ++ [Event.searching keyword] }
    match search with
    | SearchResult.found msg posts =>
      instaFinally (instaPostsLoop wantV wantP running 0
        { s1 with events := s1.events ++ [Event.searchFound msg] } posts)
    | SearchResult.noResults =>
      instaFinally { s1 with events := s1.events ++ [Event.noResultsError] }
    | SearchResult.tooMany =>
      instaFinally (handle_rate_limit running s1)
    | SearchResult.loginExpired =>
      instaFinally { s1 with events := s1.events ++ [Event.loginRequired] }
    | SearchResult.otherErr m =>
      instaFinally { s1 with events := s1.events ++ [Event.generalError m] }
  else
    instaFinally { s0 with events := s0.events ++ [Event.loginRequired] }

/-- The state of a freshly constructed worker (DownloadWorker.__init__,
lines 82-88): downloaded_hashes as loaded, the given on-disk index file
content and directory content, and empty traces. -/
def freshWorkerState (loaded : HashIdx) (persisted : HashIdx)
    (disk : List DiskFile) : WState :=
  { idx := loaded, persisted := persisted, disk := disk,
    events := [], ops := [], total_downloaded := 0, sleeps := [] }

/-- Worker construction (DownloadWorker.__init__, line 88 calling
load_hashes): a normal load yields the worker state; an escaping
UnicodeDecodeError crashes the constructor, so no worker exists (none) and
no run — and hence no finished event — can happen. -/
def constructWorker (fileExists : Bool) (content : List Nat)
    (parsed : Option HashIdx) (persisted : HashIdx)
    (disk : List DiskFile) : Option WState :=
  match load_hashes fileExists content parsed with
  | LoadOutcome.ret m => some (freshWorkerState m persisted disk)
  | LoadOutcome.exn => none

/-- Representative byte content of an index file written by save_hashes:
json.dump writes the utf-8 encoding of its output text, which always
decodes, and load_hashes reads the content only through utf8Valid (its
branching uses nothing else of it), so any utf8Valid byte string together
with the round-trip parse outcome describes loading a flushed file
faithfully; the two bytes of an empty json object serve as the
representative. -/
def flushedBytes : List Nat := [0x7B, 0x7D]

/-- The fetched files the download loop hashes on a run over the given
posts: the files of every kind-wanted post whose download succeeds. -/
def processedFiles (wantV wantP : Bool) : List Post → List FetchedFile
  | [] => []
  | p :: rest =>
    (if postWanted wantV wantP p && p.fetch_ok then p.files else []) ++
      processedFiles wantV wantP rest

/-- Number of index entries recorded under a given content hash. -/
def keyCount (h : String) (idx : HashIdx) : Nat :=
  idx.countP (fun e => decide (e.1 = h))

def isStoredFor (h : String) : DiskFile → Bool
  | DiskFile.stored _ h2 _ => decide (h2 = h)
  | _ => false

/-- Number of renamed (deduplicated) files on disk whose embedded content
hash is the given one. -/
def storedCountFor (h : String) (disk : List DiskFile) : Nat :=
  disk.countP (isStoredFor h)

/-- One fetched item of the dedup loop together with the post data the loop
body reads: the shortcode and is_video flag of the post it came from. -/
structure PIt where
  sc : String
  isVideo : Bool
  file : FetchedFile
deriving DecidableEq, Repr

/-- The dedup loop body folded over a sequence of fetched items, possibly
spanning several posts. -/
def processItems (s : WState) (its : List PIt) : WState :=
  its.foldl (fun s it => processFile it.sc it.isVideo s it.file) s

/-- Decides whether, in a mutation trace, every index insert is immediately
followed by a flush of the index file (the spec reading of
flush-after-every-insert). -/
def flushImmediatelyAfterEveryInsert : List Op → Bool
  | [] => true
  | Op.insertHash _ :: rest =>
    (match rest with
     | Op.flushIdx :: _ => true
     | _ => false) && flushImmediatelyAfterEveryInsert rest
  | _ :: rest => flushImmediatelyAfterEveryInsert rest

/-- The filename format stated by the spec (section 6): platform, source id,
8-character hash prefix, and extension mp4 for videos, jpg for photos.
Stated from the spec words, for comparison with instaNewName and
tiktokNewName. -/
def specFileName (platform sourceId hash : String) (isVideo : Bool) : String :=
  platform ++ "_" ++ sourceId ++ "_" ++ hash.take 8 ++ "." ++
    (if isVideo then "mp4" else "jpg")

/-- The instance attributes a TikTokDownloadWorker has after construction:
DownloadWorker.__init__ (lines 82-88) sets platform, download_path,
is_running, hash_file and downloaded_hashes; TikTokDownloadWorker.__init__
(lines 329-332) adds keyword_or_url and download_type.  Methods and class
signals are listed too so that attribute lookup over this list is faithful;
no L, keyword, download_videos or download_photos is ever assigned. -/
def tiktokWorkerAttrs : List String :=
  ["platform", "download_path", "is_running", "hash_file", "downloaded_hashes",
   "keyword_or_url", "download_type",
   "progress", "download_progress", "finished", "error",
   "load_hashes", "save_hashes", "calculate_hash", "stop",
   "download_video", "extract_video_id", "run"]

/-- The message of the AttributeError raised at line 372 (python
punctuation omitted). -/
def attrErrorMsg : String :=
  "TikTokDownloadWorker object has no attribute L"

/-- The finally block of TikTokDownloadWorker.run (lines 489-492): the
summary progress line only when total_downloaded is positive, then
finished.emit. -/
def tiktokFinally (s : WState) : WState :=
  let s1 :=
    if s.total_downloaded > 0 then
      { s with events := s.events ++ [Event.summary s.total_downloaded] }
    else s
  { s1 with events := s1.events ++ [Event.finished] }

/-- TikTokDownloadWorker.run (lines 369-492).  Line 370 initialises the
local counter total_downloaded = 0.  Its first statement inside
the try, `if not self.L.context.is_logged_in` (line 372), looks up the
attribute L on self; the lookup fails (L is never assigned on the TikTok
worker or its base class), raising AttributeError, which the
`except Exception` handler of lines 486-488 turns into a general-error
emission, after which the finally block runs.  The branch in which the
lookup would succeed is unreachable. -/
def tiktokRun (st : WState) : WState :=
  let s0 := { st with total_downloaded := 0 }
  if "L" ∈ tiktokWorkerAttrs then
    s0
  else
    tiktokFinally
      { s0 with events := s0.events ++ [Event.generalError attrErrorMsg] }

/-- Outcome of one attempt of the TikTok search retry loop body (lines
384-397), as provided by the environment: a result list, a
TooManyRequestsException, or any other exception. -/
inductive Attempt
  | ok (posts : List Post)
  | tooMany
  | err
deriving DecidableEq, Repr

/-- Result of the retry loop of lines 383-415: a non-empty result broke the
loop, the loop exhausted its attempts with a falsy result (line 417 then
errors), or the exception of the last attempt was re-raised (lines 408 and
415). -/
inductive RetryResult
  | found (posts : List Post)
  | noneFound
  | raised (a : Attempt)
deriving DecidableEq, Repr

/-- The `for attempt in range(max_retries)` loop of lines 383-415, with
max_retries = 3 and retry_delay = 5.  On TooManyRequestsException a
non-final attempt sleeps retry_delay * 2^attempt (line 404); on any other
exception a non-final attempt sleeps retry_delay * (attempt + 1) (line
411); a final attempt re-raises.  fuel is the number of remaining
attempts; the returned list records the slept delays. -/
def tiktokSearchRetryAux (env : Nat → Attempt) :
    Nat → Nat → List Nat → RetryResult × List Nat
  | _, 0, sleeps => (RetryResult.noneFound, sleeps)
  | attempt, fuel + 1, sleeps =>
    match env attempt with
    | Attempt.ok posts =>
      if posts.isEmpty then tiktokSearchRetryAux env (attempt + 1) fuel sleeps
      else (RetryResult.found posts, sleeps)
    | Attempt.tooMany =>
      if fuel = 0 then (RetryResult.raised Attempt.tooMany, sleeps)
      else tiktokSearchRetryAux env (attempt + 1) fuel (sleeps ++ [5 * 2 ^ attempt])
    | Attempt.err =>
      if fuel = 0 then (RetryResult.raised Attempt.err, sleeps)
      else tiktokSearchRetryAux env (attempt + 1) fuel (sleeps ++ [5 * (attempt + 1)])

/-- The TikTok search retry loop started as at line 383: attempt 0, three
attempts available, nothing slept yet. -/
def tiktokSearchRetry (env : Nat → Attempt) : RetryResult × List Nat :=
  tiktokSearchRetryAux env 0 3 []

/-- Removal of a path from the modelled flat directory used by
download_video (entries are path-to-bytes-written pairs). -/
def removePath (p : String) (d : List (String × Nat)) : List (String × Nat) :=
  d.filter (fun e => !(e.1 = p))

/-- The chunk loop of TikTokDownloadWorker.download_video (lines 343-355):
running i is the value of self.is_running observed at the check preceding
chunk number i; a cleared flag closes and os.remove-s the partial file and
returns False (lines 345-348); otherwise the chunk is appended (a falsy
empty chunk appends 0 bytes).  The started file itself is represented by
the written-bytes accumulator and materialised on return; the
download_progress percentage emission (floating point) is not modelled. -/
def downloadChunks (running : Nat → Bool) (outPath : String) :
    List Nat → Nat → Nat → List (String × Nat) → Bool × List (String × Nat)
  | [], _, written, d => (true, (outPath, written) :: d)
  | c :: cs, i, written, d =>
    if running i then downloadChunks running outPath cs (i + 1) (written + c) d
    else (false, d)

/-- TikTokDownloadWorker.download_video (lines 334-361): fetchOk is whether
requests.get succeeds (on failure the except of lines 358-361 returns
False); open(output_path, wb) truncates any existing entry of that path,
then the chunk loop runs. -/
def download_video (running : Nat → Bool) (fetchOk : Bool) (chunks : List Nat)
    (outPath : String) (d : List (String × Nat)) : Bool × List (String × Nat) :=
  if fetchOk then downloadChunks running outPath chunks 0 0 (removePath outPath d)
  else (false, d)

/-- One item of the spec-modelled acquisition driver: the output path its
bytes are written to and the chunk sizes of its byte stream. -/
structure DItem where
  path : String
  chunks : List Nat
deriving DecidableEq, Repr

/-- The one-way cancellation flag: cleared from the moment the worker is
about to read chunk stop.2 of item stop.1 on (stop() at line 112-113 only
ever sets is_running to False). -/
def flagAt (stop : Nat × Nat) (item chunk : Nat) : Bool :=
  decide (item < stop.1 ∨ (item = stop.1 ∧ chunk < stop.2))

/-- Modelled from the spec: src/vi.py contains no caller of
TikTokDownloadWorker.download_video (TikTokDownloadWorker.run never reaches
a download), so the per-item acquisition loop the spec describes in section
4.1 is modelled from the spec words: the cancellation flag is checked
before starting each new item, each item is fetched by download_video, and
successes are counted. -/
def acquireItems (stop : Nat × Nat) :
    Nat → List DItem → List (String × Nat) → Nat → List (String × Nat) × Nat
  | _, [], d, n => (d, n)
  | k, it :: rest, d, n =>
    if flagAt stop k 0 then
      let r := download_video (flagAt stop k) true it.chunks it.path d
      acquireItems stop (k + 1) rest r.2 (if r.1 then n + 1 else n)
    else (d, n)

/-- Modelled from the spec: the driver around acquireItems, ending with the
terminal summary and finished events of the progress contract (spec
sections 6 and 7). -/
def tiktokAcquire (stop : Nat × Nat) (items : List DItem) :
    List (String × Nat) × Nat × List Event :=
  let r := acquireItems stop 0 items [] 0
  (r.1, r.2, [Event.summary r.2, Event.finished])

/-! ### Basic lemmas about the index, the directory and the loop body -/

theorem lookupHash_cons (e : String × HashRecord) (es : HashIdx) (h : String) :
    lookupHash (e :: es) h = if e.1 = h then some e.2 else lookupHash es h := rfl

theorem lookupHash_isSome_cons (e : String × HashRecord) (es : HashIdx)
    (h : String) (hs : (lookupHash es h).isSome) :
    (lookupHash (e :: es) h).isSome = true := by
  rw [lookupHash_cons]
  split <;> simp [hs]

theorem lookupHash_none_keyCount (h : String) :
    ∀ idx : HashIdx, lookupHash idx h = none → keyCount h idx = 0
  | [], _ => rfl
  | e :: es, H => by
    rw [lookupHash_cons] at H
    by_cases he : e.1 = h
    · simp [he] at H
    · rw [if_neg he] at H
      have IH := lookupHash_none_keyCount h es H
      unfold keyCount at IH ⊢
      rw [List.countP_cons, IH]
      simp [he]

theorem eraseFile_cons_self (y : DiskFile) (ys : List DiskFile) :
    eraseFile (y :: ys) y = ys := by
  simp [eraseFile]

theorem countP_eraseFile (p : DiskFile → Bool) (x : DiskFile) (hx : p x = false) :
    ∀ d : List DiskFile, (eraseFile d x).countP p = d.countP p
  | [] => rfl
  | y :: ys => by
    by_cases hyx : y = x
    · subst hyx; simp [eraseFile, List.countP_cons, hx]
    · simp [eraseFile, hyx, List.countP_cons, countP_eraseFile p x hx ys]

theorem processFile_dup (sc : String) (iv : Bool) (s : WState) (f : FetchedFile)
    (h : (lookupHash s.idx f.hash).isSome) :
    processFile sc iv s f =
      { s with disk := eraseFile s.disk (DiskFile.fetched f.name),
               events := s.events ++ [Event.dupSkipped sc],
               ops := s.ops ++ [Op.removeFile f.name] } := by
  cases hl : lookupHash s.idx f.hash with
  | none => rw [hl] at h; simp at h
  | some r => simp [processFile, hl]

theorem processFile_fresh (sc : String) (iv : Bool) (s : WState) (f : FetchedFile)
    (h : lookupHash s.idx f.hash = none) :
    processFile sc iv s f =
      { s with
        disk := DiskFile.stored sc f.hash f.ext ::
          eraseFile s.disk (DiskFile.fetched f.name),
        idx := (f.hash, ⟨sc, if iv then "video" else "photo",
          instaNewName sc f.hash f.ext⟩) :: s.idx,
        total_downloaded := s.total_downloaded + 1,
        events := s.events ++ [Event.downloadedMsg (instaNewName sc f.hash f.ext)],
        ops := s.ops ++ [Op.renameFile f.name (instaNewName sc f.hash f.ext),
          Op.insertHash f.hash] } := by
  simp [processFile, h]

/-- Closed form of the dedup fold when every item hash is already present:
each fetched file is deleted, one dup-skipped event per item, no index or
counter change. -/
theorem processItems_dup :
    ∀ (its : List PIt) (s : WState),
      (∀ it ∈ its, (lookupHash s.idx it.file.hash).isSome) →
      processItems s its =
        { s with
          disk := its.foldl
            (fun d it => eraseFile d (DiskFile.fetched it.file.name)) s.disk,
          events := s.events ++ its.map (fun it => Event.dupSkipped it.sc),
          ops := s.ops ++ its.map (fun it => Op.removeFile it.file.name) }
  | [], s, _ => by simp [processItems]
  | it :: its, s, H => by
    have h1 : (lookupHash s.idx it.file.hash).isSome := H it (by simp)
    have step := processFile_dup it.sc it.isVideo s it.file h1
    have H2 : ∀ jt ∈ its,
        (lookupHash ({ s with
          disk := eraseFile s.disk (DiskFile.fetched it.file.name),
          events := s.events ++ [Event.dupSkipped it.sc],
          ops := s.ops ++ [Op.removeFile it.file.name] } : WState).idx
          jt.file.hash).isSome := by
      intro jt hjt
      exact H jt (by simp [hjt])
    have IH := processItems_dup its _ H2
    simp only [processItems, List.foldl_cons] at *
    rw [step, IH]
    simp

theorem erase_fetched_prefix :
    ∀ (files : List FetchedFile) (D : List DiskFile),
      files.foldl (fun d f => eraseFile d (DiskFile.fetched f.name))
        (files.map (fun f => DiskFile.fetched f.name) ++ D) = D
  | [], D => rfl
  | f :: fs, D => by
    simp only [List.map_cons, List.cons_append, List.foldl_cons,
      eraseFile_cons_self]
    exact erase_fetched_prefix fs D

theorem storedCount_fold_erase (h : String) :
    ∀ (its : List PIt) (d : List DiskFile),
      storedCountFor h (its.foldl
        (fun d it => eraseFile d (DiskFile.fetched it.file.name)) d) =
      storedCountFor h d
  | [], _ => rfl
  | it :: its, d => by
    simp only [List.foldl_cons]
    rw [storedCount_fold_erase h its]
    exact countP_eraseFile _ _ rfl d

/-! ### C1 -/

/-- C1: over the dedup loop body (lines 266-287, shared by both workers),
for any sequence of fetched items whose bytes all hash to the same fresh
content hash h, exactly one index record ends up under h, exactly one
renamed file for h remains on disk, the record and the renamed file come
from the first item (renamed then inserted), and every later item only has
its fetched file deleted (the trace after the first item is exactly one
removeFile per item, no rename and no insert). -/
theorem c1_at_most_one_file_per_hash
    (h : String) (it0 : PIt) (rest : List PIt) (s0 : WState)
    (hall : ∀ it ∈ (it0 :: rest : List PIt), it.file.hash = h)
    (hfresh : lookupHash s0.idx h = none)
    (hdisk : storedCountFor h s0.disk = 0) :
    keyCount h (processItems s0 (it0 :: rest)).idx = 1 ∧
    storedCountFor h (processItems s0 (it0 :: rest)).disk = 1 ∧
    lookupHash (processItems s0 (it0 :: rest)).idx h =
      some ⟨it0.sc, (if it0.isVideo then "video" else "photo"),
        instaNewName it0.sc h it0.file.ext⟩ ∧
    (processItems s0 (it0 :: rest)).ops =
      s0.ops ++ [Op.renameFile it0.file.name (instaNewName it0.sc h it0.file.ext),
        Op.insertHash h] ++ rest.map (fun it => Op.removeFile it.file.name) := by
  have h0 : it0.file.hash = h := hall it0 (by simp)
  have hfresh0 : lookupHash s0.idx it0.file.hash = none := by rw [h0]; exact hfresh
  have step := processFile_fresh it0.sc it0.isVideo s0 it0.file hfresh0
  have unfold1 : processItems s0 (it0 :: rest) =
      processItems (processFile it0.sc it0.isVideo s0 it0.file) rest := rfl
  rw [unfold1, step]
  set s1 : WState :=
    { s0 with
      disk := DiskFile.stored it0.sc it0.file.hash it0.file.ext ::
        eraseFile s0.disk (DiskFile.fetched it0.file.name),
      idx := (it0.file.hash, ⟨it0.sc, if it0.isVideo then "video" else "photo",
        instaNewName it0.sc it0.file.hash it0.file.ext⟩) :: s0.idx,
      total_downloaded := s0.total_downloaded + 1,
      events := s0.events ++
        [Event.downloadedMsg (instaNewName it0.sc it0.file.hash it0.file.ext)],
      ops := s0.ops ++
        [Op.renameFile it0.file.name (instaNewName it0.sc it0.file.hash it0.file.ext),
         Op.insertHash it0.file.hash] } with hs1
  have hlook1 : lookupHash s1.idx h =
      some ⟨it0.sc, (if it0.isVideo then "video" else "photo"),
        instaNewName it0.sc h it0.file.ext⟩ := by
    rw [hs1]
    simp [lookupHash_cons, h0]
  have hdupAll : ∀ it ∈ rest, (lookupHash s1.idx it.file.hash).isSome := by
    intro it hit
    rw [hall it (by simp [hit]), hlook1]
    rfl
  rw [processItems_dup rest s1 hdupAll]
  refine ⟨?_, ?_, ?_, ?_⟩
  · show keyCount h s1.idx = 1
    rw [hs1]
    unfold keyCount
    rw [List.countP_cons]
    have := lookupHash_none_keyCount h s0.idx hfresh
    unfold keyCount at this
    simp [this, h0]
  · show storedCountFor h (rest.foldl
      (fun d it => eraseFile d (DiskFile.fetched it.file.name)) s1.disk) = 1
    rw [storedCount_fold_erase, hs1]
    unfold storedCountFor
    rw [List.countP_cons]
    have he : (eraseFile s0.disk (DiskFile.fetched it0.file.name)).countP
        (isStoredFor h) = 0 := by
      rw [countP_eraseFile _ _ rfl]
      exact hdisk
    simp [he, isStoredFor, h0]
  · exact hlook1
  · rw [hs1]
    simp [h0]

/-- Sample inputs for the C1 witness: two items from different posts whose
fetched bytes hash identically. -/
def c1SampleItems : List PIt :=
  [⟨"sc1", true, ⟨"x1.mp4", "aabbccdd", ".mp4"⟩⟩,
   ⟨"sc2", false, ⟨"x2.mp4", "aabbccdd", ".mp4"⟩⟩]

/-- Witness for c1_at_most_one_file_per_hash at a concrete input. -/
theorem c1_witness :
    (∀ it ∈ c1SampleItems, it.file.hash = "aabbccdd") ∧
    lookupHash (freshWorkerState [] [] []).idx "aabbccdd" = none ∧
    storedCountFor "aabbccdd" (freshWorkerState [] [] []).disk = 0 ∧
    (keyCount "aabbccdd"
        (processItems (freshWorkerState [] [] []) c1SampleItems).idx = 1 ∧
      storedCountFor "aabbccdd"
        (processItems (freshWorkerState [] [] []) c1SampleItems).disk = 1 ∧
      lookupHash (processItems (freshWorkerState [] [] []) c1SampleItems).idx
          "aabbccdd" =
        some ⟨"sc1", "video", instaNewName "sc1" "aabbccdd" ".mp4"⟩ ∧
      (processItems (freshWorkerState [] [] []) c1SampleItems).ops =
        [] ++ [Op.renameFile "x1.mp4" (instaNewName "sc1" "aabbccdd" ".mp4"),
          Op.insertHash "aabbccdd"] ++ [Op.removeFile "x2.mp4"]) :=
  ⟨by decide, by decide, by decide,
    c1_at_most_one_file_per_hash "aabbccdd"
      ⟨"sc1", true, ⟨"x1.mp4", "aabbccdd", ".mp4"⟩⟩
      [⟨"sc2", false, ⟨"x2.mp4", "aabbccdd", ".mp4"⟩⟩]
      (freshWorkerState [] [] []) (by decide) (by decide) (by decide)⟩

/-! ### C10 -/

/-- C10: TikTokDownloadWorker.run downloads nothing on every input: the
attributes L, keyword and download_videos its first statements read are
never assigned on the TikTok worker or its base class, so every run takes
the generic exception branch and emits exactly a general error followed by
the finished event, leaving the directory, the index and the mutation
trace untouched. -/
theorem c10_tiktok_run_always_errors (s0 : WState) :
    "L" ∉ tiktokWorkerAttrs ∧ "keyword" ∉ tiktokWorkerAttrs ∧
    "download_videos" ∉ tiktokWorkerAttrs ∧
    (tiktokRun s0).disk = s0.disk ∧
    (tiktokRun s0).idx = s0.idx ∧
    (tiktokRun s0).persisted = s0.persisted ∧
    (tiktokRun s0).ops = s0.ops ∧
    (tiktokRun s0).total_downloaded = 0 ∧
    (tiktokRun s0).events =
      s0.events ++ [Event.generalError attrErrorMsg, Event.finished] := by
  have hL : ¬ ("L" ∈ tiktokWorkerAttrs) := by decide
  refine ⟨hL, by decide, by decide, ?_, ?_, ?_, ?_, ?_, ?_⟩ <;>
    simp [tiktokRun, tiktokFinally, hL]

/-! ### C4 -/

/-- C4 counterexample: with a content source whose every attempt raises a
transient (non-rate-limit) error, the TikTok search retry loop makes its 3
attempts with the linearly growing delays 5 and 10 seconds and then
re-raises the exception.  The raised outcome is handled by the
except-Exception block of lines 486-488, which emits a job-level general
error and ends the run: the loop never produces a kept-going outcome
(found or noneFound), so the job does not give up on one item and continue
with the next as the claim states. -/
theorem c4_counterexample :
    tiktokSearchRetry (fun _ => Attempt.err) =
      (RetryResult.raised Attempt.err, [5, 10]) ∧
    (tiktokSearchRetry (fun _ => Attempt.err)).1 ≠ RetryResult.noneFound ∧
    ∀ posts, (tiktokSearchRetry (fun _ => Attempt.err)).1 ≠
      RetryResult.found posts := by
  refine ⟨by decide, by decide, ?_⟩
  intro posts
  simp [tiktokSearchRetry, show tiktokSearchRetryAux (fun _ => Attempt.err) 0 3 [] =
    (RetryResult.raised Attempt.err, [5, 10]) by decide]

/-- C4 amended: for transient non-rate-limit errors the search retry loop
attempts the operation at most 3 times with linearly increasing delays
5*1 and 5*2 seconds between attempts (not exponential ones), and after the
third failure it re-raises the error, aborting the whole job (general
error then finished), instead of recording the item and continuing. -/
theorem c4_retry_gives_up_job (env : Nat → Attempt)
    (henv : ∀ i, env i = Attempt.err) :
    tiktokSearchRetry env = (RetryResult.raised Attempt.err, [5 * 1, 5 * 2]) := by
  rw [funext henv]
  decide

/-- Witness for c4_retry_gives_up_job at the concrete always-failing
environment. -/
theorem c4_witness :
    (∀ i : Nat, (fun _ => Attempt.err) i = Attempt.err) ∧
    tiktokSearchRetry (fun _ => Attempt.err) =
      (RetryResult.raised Attempt.err, [5 * 1, 5 * 2]) :=
  ⟨fun _ => rfl, c4_retry_gives_up_job (fun _ => Attempt.err) (fun _ => rfl)⟩

/-! ### C6 -/

/-- C6 counterexample: a single post with two distinct-hash files produces
the trace rename, insert, rename, insert, flush — the first insert is not
followed by a flush, so the index file is not flushed after every single
insert; concretely, after the first file is processed the in-memory index
holds its hash while the persisted index does not. -/
theorem c6_counterexample :
    flushImmediatelyAfterEveryInsert
      (processPost true true (freshWorkerState [] [] [])
        { shortcode := "abc", is_video := false, fetch_ok := true,
          files := [⟨"f1.jpg", "aaaa1111", ".jpg"⟩,
                    ⟨"f2.jpg", "bbbb2222", ".jpg"⟩] }).ops = false ∧
    (processPost true true (freshWorkerState [] [] [])
        { shortcode := "abc", is_video := false, fetch_ok := true,
          files := [⟨"f1.jpg", "aaaa1111", ".jpg"⟩,
                    ⟨"f2.jpg", "bbbb2222", ".jpg"⟩] }).ops.countP isInsertOp = 2 ∧
    (processPost true true (freshWorkerState [] [] [])
        { shortcode := "abc", is_video := false, fetch_ok := true,
          files := [⟨"f1.jpg", "aaaa1111", ".jpg"⟩,
                    ⟨"f2.jpg", "bbbb2222", ".jpg"⟩] }).ops.countP isFlushOp = 1 ∧
    (lookupHash (processFile "abc" false (freshWorkerState [] [] [])
        ⟨"f1.jpg", "aaaa1111", ".jpg"⟩).idx "aaaa1111").isSome = true ∧
    lookupHash (processFile "abc" false (freshWorkerState [] [] [])
        ⟨"f1.jpg", "aaaa1111", ".jpg"⟩).persisted "aaaa1111" = none := by
  decide

/-- C6 amended: the index is flushed once per processed post, after all of
the files of that post are handled, so at every post boundary (and hence
between posts and at the end of the run) the persisted index equals the
in-memory index; within a post, inserts are batched until the flush of
the post. -/
theorem c6_flush_per_post (wV wP : Bool) (s : WState) (p : Post)
    (hinv : s.persisted = s.idx) :
    (processPost wV wP s p).persisted = (processPost wV wP s p).idx := by
  unfold processPost save_hashes
  split
  · split
    · simp
    · simpa using hinv
  · simpa using hinv

/-- Witness for c6_flush_per_post at a concrete state and post. -/
theorem c6_witness :
    (freshWorkerState [] [] []).persisted = (freshWorkerState [] [] []).idx ∧
    (processPost true true (freshWorkerState [] [] [])
        { shortcode := "abc", is_video := false, fetch_ok := true,
          files := [⟨"f1.jpg", "aaaa1111", ".jpg"⟩] }).persisted =
      (processPost true true (freshWorkerState [] [] [])
        { shortcode := "abc", is_video := false, fetch_ok := true,
          files := [⟨"f1.jpg", "aaaa1111", ".jpg"⟩] }).idx :=
  ⟨rfl, c6_flush_per_post true true (freshWorkerState [] [] [])
    { shortcode := "abc", is_video := false, fetch_ok := true,
      files := [⟨"f1.jpg", "aaaa1111", ".jpg"⟩] } rfl⟩

/-! ### C9 -/

theorem eraseFile_subset (x : DiskFile) :
    ∀ (d : List DiskFile) (y : DiskFile), x ∈ eraseFile d y → x ∈ d
  | [], _, hx => by simp [eraseFile] at hx
  | z :: zs, y, hx => by
    by_cases hzy : z = y
    · subst hzy; rw [eraseFile_cons_self] at hx; exact List.mem_cons_of_mem z hx
    · rw [show eraseFile (z :: zs) y = z :: eraseFile zs y by simp [eraseFile, hzy]] at hx
      rcases List.mem_cons.mp hx with h | h
      · exact h ▸ List.mem_cons_self z zs
      · exact List.mem_cons_of_mem z (eraseFile_subset x zs y h)

theorem stored_mem_foldFiles (a b c : String) (sc : String) (iv : Bool) :
    ∀ (files : List FetchedFile) (s : WState),
      DiskFile.stored a b c ∈ (files.foldl (processFile sc iv) s).disk →
      DiskFile.stored a b c ∈ s.disk ∨
        ∃ f ∈ files, a = sc ∧ b = f.hash ∧ c = f.ext
  | [], _, hm => Or.inl hm
  | f :: fs, s, hm => by
    simp only [List.foldl_cons] at hm
    rcases stored_mem_foldFiles a b c sc iv fs _ hm with h | h
    · unfold processFile at h
      split at h
      · rcases List.mem_cons.mp h with h1 | h1
        · rcases h1 with ⟨⟩
          exact Or.inr ⟨f, by simp⟩
        · exact Or.inl (eraseFile_subset _ _ _ h1)
      · exact Or.inl (eraseFile_subset _ _ _ h)
    · rcases h with ⟨g, hg, h1⟩
      exact Or.inr ⟨g, List.mem_cons_of_mem f hg, h1⟩

/-- C9 counterexample: the code preserves the fetched file extension and
hard-codes the instagram_ prefix.  A video post whose fetched file has the
extension .part is persisted by the Instagram worker under
instagram_abc_01234567.part, which is not the spec name with extension mp4;
and the rename target of the TikTok worker (line 448) starts with instagram_,
not tiktok_, even for an .mp4 video. -/
theorem c9_counterexample :
    DiskFile.stored "abc" "0123456789abcdef" ".part" ∈
      (processPost true true (freshWorkerState [] [] [])
        { shortcode := "abc", is_video := true, fetch_ok := true,
          files := [⟨"x.part", "0123456789abcdef", ".part"⟩] }).disk ∧
    (DiskFile.stored "abc" "0123456789abcdef" ".part").name ≠
      specFileName "instagram" "abc" "0123456789abcdef" true ∧
    tiktokNewName "abc" "0123456789abcdef" ".mp4" ≠
      specFileName "tiktok" "abc" "0123456789abcdef" true := by
  decide

/-- C9 amended: every file persisted by the dedup loop is named
instagram_<shortcode>_<hash_prefix8><original extension> — the prefix is
the literal instagram_ for both workers and the extension is the fetched
own extension of the fetched file, regardless of media kind: any renamed
file on disk after a post is processed either predates the post or carries
the shortcode of the post and the hash and extension of one of its fetched
files, and its
name is instagram_ ++ shortcode ++ _ ++ first 8 hash characters ++
extension. -/
theorem c9_filename_format (wV wP : Bool) (s : WState) (p : Post)
    (sc h ext : String)
    (hmem : DiskFile.stored sc h ext ∈ (processPost wV wP s p).disk) :
    (DiskFile.stored sc h ext ∈ s.disk ∨
      (sc = p.shortcode ∧ ∃ f ∈ p.files, h = f.hash ∧ ext = f.ext)) ∧
    (DiskFile.stored sc h ext).name =
      "instagram_" ++ sc ++ "_" ++ h.take 8 ++ ext := by
  refine ⟨?_, rfl⟩
  unfold processPost at hmem
  split at hmem
  · split at hmem
    · rcases stored_mem_foldFiles sc h ext p.shortcode p.is_video p.files _ hmem
        with hm | hm
      · simp only [List.mem_append] at hm
        rcases hm with hm | hm
        · rcases List.mem_map.mp hm with ⟨f, _, hf⟩
          cases hf
        · exact Or.inl hm
      · rcases hm with ⟨f, hf, h1, h2, h3⟩
        exact Or.inr ⟨h1, f, hf, h2, h3⟩
    · exact Or.inl hmem
  · exact Or.inl hmem

/-- Witness for c9_filename_format at a concrete post. -/
theorem c9_witness :
    DiskFile.stored "abc" "0123456789abcdef" ".part" ∈
      (processPost true true (freshWorkerState [] [] [])
        { shortcode := "abc", is_video := true, fetch_ok := true,
          files := [⟨"x.part", "0123456789abcdef", ".part"⟩] }).disk ∧
    ((DiskFile.stored "abc" "0123456789abcdef" ".part" ∈
        (freshWorkerState [] [] []).disk ∨
      ("abc" = "abc" ∧ ∃ f ∈ [(⟨"x.part", "0123456789abcdef", ".part"⟩ : FetchedFile)],
        "0123456789abcdef" = f.hash ∧ ".part" = f.ext)) ∧
     (DiskFile.stored "abc" "0123456789abcdef" ".part").name =
       "instagram_" ++ "abc" ++ "_" ++ ("0123456789abcdef" : String).take 8 ++ ".part") :=
  ⟨by decide,
    c9_filename_format true true (freshWorkerState [] [] [])
      { shortcode := "abc", is_video := true, fetch_ok := true,
        files := [⟨"x.part", "0123456789abcdef", ".part"⟩] }
      "abc" "0123456789abcdef" ".part" (by decide)⟩

/-! ### Event counting through InstagramDownloadWorker.run -/

/-- An event predicate that is false on everything the download loop can
emit. -/
def loopNeutral (q : Event → Bool) : Prop :=
  (∀ n, q (Event.downloadedMsg n) = false) ∧
  (∀ sc, q (Event.dupSkipped sc) = false) ∧
  (∀ sc, q (Event.downloadingPost sc) = false) ∧
  (∀ n, q (Event.downloadProgress n) = false)

theorem countP_events_processFile (q : Event → Bool) (hq : loopNeutral q)
    (sc : String) (iv : Bool) (s : WState) (f : FetchedFile) :
    ((processFile sc iv s f).events).countP q = s.events.countP q := by
  obtain ⟨h1, h2, _, _⟩ := hq
  unfold processFile
  split <;> simp [List.countP_append, List.countP_cons, h1, h2]

theorem countP_events_foldFiles (q : Event → Bool) (hq : loopNeutral q)
    (sc : String) (iv : Bool) :
    ∀ (files : List FetchedFile) (s : WState),
      ((files.foldl (processFile sc iv) s).events).countP q = s.events.countP q
  | [], _ => rfl
  | f :: fs, s => by
    simp only [List.foldl_cons]
    rw [countP_events_foldFiles q hq sc iv fs, countP_events_processFile q hq]

theorem countP_events_processPost (q : Event → Bool) (hq : loopNeutral q)
    (wV wP : Bool) (s : WState) (p : Post) :
    ((processPost wV wP s p).events).countP q = s.events.countP q := by
  obtain ⟨h1, h2, h3, h4⟩ := hq
  unfold processPost save_hashes
  split
  · split
    · simp only []
      rw [List.countP_append,
        countP_events_foldFiles q ⟨h1, h2, h3, h4⟩ p.shortcode p.is_video]
      simp [List.countP_append, List.countP_cons, h3, h4]
    · simp [List.countP_append, List.countP_cons, h3]
  · rfl

theorem countP_events_instaLoop (q : Event → Bool) (hq : loopNeutral q)
    (wV wP : Bool) (running : Nat → Bool) :
    ∀ (posts : List Post) (i : Nat) (s : WState),
      ((instaPostsLoop wV wP running i s posts).events).countP q =
        s.events.countP q
  | [], _, _ => rfl
  | p :: ps, i, s => by
    unfold instaPostsLoop
    split
    · rw [countP_events_instaLoop q hq wV wP running ps (i + 1),
        countP_events_processPost q hq]
    · rfl

theorem countP_events_hrlLoop (q : Event → Bool)
    (hrlq : ∀ d r, q (Event.rateLimitWait d r) = false) (running : Nat → Bool) :
    ∀ (fuel ri d : Nat) (s : WState),
      ((handleRateLimitLoop running ri d fuel s).events).countP q =
        s.events.countP q
  | 0, _, _, _ => rfl
  | fuel + 1, ri, d, s => by
    unfold handleRateLimitLoop
    split
    · rw [countP_events_hrlLoop q hrlq running fuel]
      simp [List.countP_append, List.countP_cons, hrlq]
    · rfl

theorem countP_events_instaFinally (q : Event → Bool) (b : Bool)
    (hs : ∀ n, q (Event.summary n) = b) (hn : q Event.noDownloads = b)
    (s : WState) :
    ((instaFinally s).events).countP q =
      s.events.countP q + (if b then 1 else 0) +
        (if q Event.finished then 1 else 0) := by
  unfold instaFinally
  split <;> simp [List.countP_append, List.countP_cons, hs, hn] <;> omega

/-- Counting events through a whole Instagram run, for any predicate that
ignores everything but the terminal summary lines and the finished
signal. -/
theorem countP_events_instaRun (q : Event → Bool) (hq : loopNeutral q)
    (hrlq : ∀ d r, q (Event.rateLimitWait d r) = false)
    (hsear : ∀ kw, q (Event.searching kw) = false)
    (hfound : ∀ m, q (Event.searchFound m) = false)
    (hlog : q Event.loginRequired = false)
    (hnores : q Event.noResultsError = false)
    (hgen : ∀ m, q (Event.generalError m) = false)
    (b : Bool) (hs : ∀ n, q (Event.summary n) = b)
    (hn : q Event.noDownloads = b)
    (kw : String) (loggedIn : Bool) (search : SearchResult)
    (wV wP : Bool) (running : Nat → Bool) (st : WState) :
    ((instaRun kw loggedIn search wV wP running st).events).countP q =
      st.events.countP q + (if b then 1 else 0) +
        (if q Event.finished then 1 else 0) := by
  unfold instaRun
  cases loggedIn with
  | false =>
    simp only [Bool.false_eq_true, if_false]
    rw [countP_events_instaFinally q b hs hn]
    simp [List.countP_append, List.countP_cons, hlog]
  | true =>
    simp only [if_true]
    cases search with
    | found msg posts =>
      rw [countP_events_instaFinally q b hs hn,
        countP_events_instaLoop q hq wV wP running posts 0]
      simp [List.countP_append, List.countP_cons, hsear, hfound]
    | noResults =>
      rw [countP_events_instaFinally q b hs hn]
      simp [List.countP_append, List.countP_cons, hsear, hnores]
    | tooMany =>
      rw [countP_events_instaFinally q b hs hn]
      unfold handle_rate_limit
      rw [countP_events_hrlLoop q hrlq running 3]
      simp [List.countP_append, List.countP_cons, hsear]
    | loginExpired =>
      rw [countP_events_instaFinally q b hs hn]
      simp [List.countP_append, List.countP_cons, hsear, hlog]
    | otherErr m =>
      rw [countP_events_instaFinally q b hs hn]
      simp [List.countP_append, List.countP_cons, hsear, hgen]

/-! ### C7 -/

/-- C7 counterexample: the except clause of load_hashes catches only
json.JSONDecodeError, but a corrupt or truncated index file need not be
valid UTF-8 — save_hashes writes with ensure_ascii False, so a file cut
mid multi-byte sequence is realistic.  The single byte 0xC3, a 2-byte lead
with its continuation missing, fails UTF-8 decoding: json.load raises
UnicodeDecodeError, load_hashes does not return an empty index but lets
the exception escape, and worker construction crashes — no worker, no run,
no finished event, refuting the never-crashes claim. -/
theorem c7_counterexample :
    utf8Valid [0xC3] = false ∧
    load_hashes true [0xC3] none = LoadOutcome.exn ∧
    load_hashes true [0xC3] none ≠ LoadOutcome.ret [] ∧
    constructWorker true [0xC3] none [] [] = none := by
  decide

/-- C7 amended: loading returns the empty index exactly for index-file
content that decodes as UTF-8 and then fails the JSON parse (the caught
json.JSONDecodeError), and for a missing file; the job constructed over
the empty index proceeds and emits its finished event exactly once.
Content that fails UTF-8 decoding instead raises an uncaught
UnicodeDecodeError, and worker construction crashes. -/
theorem c7_corrupt_index_behavior (content : List Nat) (kw : String)
    (search : SearchResult) (wV wP : Bool) (running : Nat → Bool)
    (parsed : Option HashIdx) (P0 : HashIdx) (D0 : List DiskFile) :
    (if utf8Valid content then
      load_hashes true content none = LoadOutcome.ret []
     else load_hashes true content none = LoadOutcome.exn) ∧
    load_hashes false content parsed = LoadOutcome.ret [] ∧
    (if utf8Valid content then
      constructWorker true content none P0 D0 =
        some (freshWorkerState [] P0 D0)
     else constructWorker true content none P0 D0 = none) ∧
    ((instaRun kw true search wV wP running
        (freshWorkerState [] P0 D0)).events).countP isFinishedEv = 1 := by
  refine ⟨?_, rfl, ?_, ?_⟩
  · by_cases hv : utf8Valid content = true
    · rw [if_pos hv]
      simp [load_hashes, hv]
    · rw [if_neg hv]
      simp only [Bool.not_eq_true] at hv
      simp [load_hashes, hv]
  · by_cases hv : utf8Valid content = true
    · rw [if_pos hv]
      simp [constructWorker, load_hashes, hv]
    · rw [if_neg hv]
      simp only [Bool.not_eq_true] at hv
      simp [constructWorker, load_hashes, hv]
  · rw [countP_events_instaRun isFinishedEv
      ⟨fun _ => rfl, fun _ => rfl, fun _ => rfl, fun _ => rfl⟩
      (fun _ _ => rfl) (fun _ => rfl) (fun _ => rfl) rfl rfl (fun _ => rfl)
      false (fun _ => rfl) rfl]
    simp [freshWorkerState, isFinishedEv]

/-! ### C8 -/

/-- C8 counterexample: a TikTok run (which can complete only through its
generic-error path) emits its finished event exactly once but no summary
progress line at all, because the finally block of lines 489-492 prints
the summary only when total_downloaded is positive — so the terminal event
is not accompanied by a summary of what was downloaded. -/
theorem c8_counterexample :
    ((tiktokRun (freshWorkerState [] [] [])).events).countP isFinishedEv = 1 ∧
    ((tiktokRun (freshWorkerState [] [] [])).events).countP isSummaryEv = 0 := by
  decide

/-- C8 amended: every worker run emits the finished event exactly once; the
Instagram worker always accompanies it with a terminal summary progress
line (the count when positive, the nothing-downloaded line otherwise),
while the TikTok worker emits the summary line only when its downloaded
count is positive — which never happens — and so emits finished alone. -/
theorem c8_terminal_event (kw : String) (loggedIn : Bool)
    (search : SearchResult) (wV wP : Bool) (running : Nat → Bool)
    (I0 P0 : HashIdx) (D0 : List DiskFile) :
    ((instaRun kw loggedIn search wV wP running
        (freshWorkerState I0 P0 D0)).events).countP isFinishedEv = 1 ∧
    ((instaRun kw loggedIn search wV wP running
        (freshWorkerState I0 P0 D0)).events).countP isSummaryEv = 1 ∧
    ((tiktokRun (freshWorkerState I0 P0 D0)).events).countP isFinishedEv = 1 := by
  have hL : ¬ ("L" ∈ tiktokWorkerAttrs) := by decide
  refine ⟨?_, ?_, ?_⟩
  · rw [countP_events_instaRun isFinishedEv
      ⟨fun _ => rfl, fun _ => rfl, fun _ => rfl, fun _ => rfl⟩
      (fun _ _ => rfl) (fun _ => rfl) (fun _ => rfl) rfl rfl (fun _ => rfl)
      false (fun _ => rfl) rfl]
    simp [freshWorkerState, isFinishedEv]
  · rw [countP_events_instaRun isSummaryEv
      ⟨fun _ => rfl, fun _ => rfl, fun _ => rfl, fun _ => rfl⟩
      (fun _ _ => rfl) (fun _ => rfl) (fun _ => rfl) rfl rfl (fun _ => rfl)
      true (fun _ => rfl) rfl]
    simp [freshWorkerState, isSummaryEv, isFinishedEv]
  · simp [tiktokRun, tiktokFinally, freshWorkerState, hL,
      List.countP_append, List.countP_cons, isFinishedEv]

/-! ### C5 -/

/-- C5 counterexample: on a TooManyRequestsException from the search phase
the Instagram job sleeps through the full escalating delay sequence 60,
120, 240 seconds, but then neither fails nor resumes: no error event is
emitted at all (the rate-limit handler only prints wait notices and the
run then falls into the normal finally block), so the job does not give up
and transition to a Failed state when the bound is exceeded. -/
theorem c5_counterexample :
    (instaRun "query" true SearchResult.tooMany true true (fun _ => true)
        (freshWorkerState [] [] [])).sleeps = [60, 120, 240] ∧
    ((instaRun "query" true SearchResult.tooMany true true (fun _ => true)
        (freshWorkerState [] [] [])).events).countP isErrorEv = 0 ∧
    ((instaRun "query" true SearchResult.tooMany true true (fun _ => true)
        (freshWorkerState [] [] [])).events).countP isFinishedEv = 1 ∧
    Event.noDownloads ∈ (instaRun "query" true SearchResult.tooMany true true
      (fun _ => true) (freshWorkerState [] [] [])).events := by
  decide

/-- C5 amended: on a rate-limit error escaping the search phase (and an
uncancelled worker) the Instagram job emits three wait notices and sleeps
60, 120 and 240 seconds back to back, then ends the run through the normal
finally block — the nothing-downloaded summary and one finished event, no
error event, nothing retried and no state or directory change. -/
theorem c5_rate_limit_sleeps_then_finishes (kw : String) (wV wP : Bool)
    (I0 P0 : HashIdx) (D0 : List DiskFile) :
    (instaRun kw true SearchResult.tooMany wV wP (fun _ => true)
        (freshWorkerState I0 P0 D0)).sleeps = [60, 120, 240] ∧
    (instaRun kw true SearchResult.tooMany wV wP (fun _ => true)
        (freshWorkerState I0 P0 D0)).events =
      [Event.searching kw, Event.rateLimitWait 60 0, Event.rateLimitWait 120 1,
       Event.rateLimitWait 240 2, Event.noDownloads, Event.finished] ∧
    ((instaRun kw true SearchResult.tooMany wV wP (fun _ => true)
        (freshWorkerState I0 P0 D0)).events).countP isErrorEv = 0 ∧
    (instaRun kw true SearchResult.tooMany wV wP (fun _ => true)
        (freshWorkerState I0 P0 D0)).disk = D0 ∧
    (instaRun kw true SearchResult.tooMany wV wP (fun _ => true)
        (freshWorkerState I0 P0 D0)).idx = I0 ∧
    (instaRun kw true SearchResult.tooMany wV wP (fun _ => true)
        (freshWorkerState I0 P0 D0)).persisted = P0 ∧
    (instaRun kw true SearchResult.tooMany wV wP (fun _ => true)
        (freshWorkerState I0 P0 D0)).ops = [] := by
  refine ⟨rfl, rfl, ?_, rfl, rfl, rfl, rfl⟩
  rfl

/-! ### Index-key monotonicity and membership through the download loop -/

theorem lookupHash_isSome_processFile (sc : String) (iv : Bool) (s : WState)
    (f : FetchedFile) (h : String) (hs : (lookupHash s.idx h).isSome) :
    (lookupHash (processFile sc iv s f).idx h).isSome := by
  unfold processFile
  split
  · exact lookupHash_isSome_cons _ _ _ hs
  · exact hs

theorem lookupHash_isSome_processFile_self (sc : String) (iv : Bool)
    (s : WState) (f : FetchedFile) :
    (lookupHash (processFile sc iv s f).idx f.hash).isSome := by
  cases hl : lookupHash s.idx f.hash with
  | none =>
    rw [processFile_fresh sc iv s f hl]
    simp [lookupHash_cons]
  | some r =>
    rw [processFile_dup sc iv s f (by rw [hl]; rfl)]
    show (lookupHash s.idx f.hash).isSome = true
    rw [hl]
    rfl

theorem lookupHash_isSome_foldFiles (sc : String) (iv : Bool) :
    ∀ (files : List FetchedFile) (s : WState) (h : String),
      (lookupHash s.idx h).isSome →
      (lookupHash ((files.foldl (processFile sc iv) s)).idx h).isSome
  | [], _, _, hs => hs
  | f :: fs, s, h, hs => by
    simp only [List.foldl_cons]
    exact lookupHash_isSome_foldFiles sc iv fs _ h
      (lookupHash_isSome_processFile sc iv s f h hs)

theorem foldFiles_mem (sc : String) (iv : Bool) :
    ∀ (files : List FetchedFile) (s : WState) (f : FetchedFile),
      f ∈ files →
      (lookupHash ((files.foldl (processFile sc iv) s)).idx f.hash).isSome
  | [], _, _, hf => absurd hf (List.not_mem_nil _)
  | g :: gs, s, f, hf => by
    simp only [List.foldl_cons]
    rcases List.mem_cons.mp hf with h1 | h1
    · subst h1
      exact lookupHash_isSome_foldFiles sc iv gs _ f.hash
        (lookupHash_isSome_processFile_self sc iv s f)
    · exact foldFiles_mem sc iv gs _ f h1

theorem processPost_idx (wV wP : Bool) (s : WState) (p : Post) :
    (processPost wV wP s p).idx =
      if postWanted wV wP p && p.fetch_ok then
        (p.files.foldl (processFile p.shortcode p.is_video)
          { s with events := s.events ++ [Event.downloadingPost p.shortcode],
                   disk := p.files.map (fun f => DiskFile.fetched f.name) ++
                     s.disk }).idx
      else s.idx := by
  unfold processPost save_hashes
  by_cases hw : postWanted wV wP p <;> by_cases hf : p.fetch_ok <;>
    simp [hw, hf]

theorem lookupHash_isSome_processPost (wV wP : Bool) (s : WState) (p : Post)
    (h : String) (hs : (lookupHash s.idx h).isSome) :
    (lookupHash (processPost wV wP s p).idx h).isSome := by
  rw [processPost_idx]
  split
  · exact lookupHash_isSome_foldFiles _ _ p.files _ h hs
  · exact hs

theorem processPost_mem (wV wP : Bool) (s : WState) (p : Post)
    (f : FetchedFile) (hw : (postWanted wV wP p && p.fetch_ok) = true)
    (hf : f ∈ p.files) :
    (lookupHash (processPost wV wP s p).idx f.hash).isSome := by
  rw [processPost_idx, if_pos hw]
  exact foldFiles_mem _ _ p.files _ f hf

theorem lookupHash_isSome_foldPosts (wV wP : Bool) :
    ∀ (posts : List Post) (s : WState) (h : String),
      (lookupHash s.idx h).isSome →
      (lookupHash ((posts.foldl (processPost wV wP) s)).idx h).isSome
  | [], _, _, hs => hs
  | p :: ps, s, h, hs => by
    simp only [List.foldl_cons]
    exact lookupHash_isSome_foldPosts wV wP ps _ h
      (lookupHash_isSome_processPost wV wP s p h hs)

theorem foldPosts_mem_processed (wV wP : Bool) :
    ∀ (posts : List Post) (s : WState) (f : FetchedFile),
      f ∈ processedFiles wV wP posts →
      (lookupHash ((posts.foldl (processPost wV wP) s)).idx f.hash).isSome
  | [], _, _, hf => absurd hf (List.not_mem_nil _)
  | p :: ps, s, f, hf => by
    simp only [List.foldl_cons]
    have hpf : processedFiles wV wP (p :: ps) =
        (if postWanted wV wP p && p.fetch_ok then p.files else []) ++
          processedFiles wV wP ps := rfl
    rw [hpf] at hf
    rcases List.mem_append.mp hf with h1 | h1
    · by_cases hw : (postWanted wV wP p && p.fetch_ok) = true
      · rw [if_pos hw] at h1
        exact lookupHash_isSome_foldPosts wV wP ps _ f.hash
          (processPost_mem wV wP s p f hw h1)
      · rw [if_neg hw] at h1
        exact absurd h1 (List.not_mem_nil _)
    · exact foldPosts_mem_processed wV wP ps _ f h1

theorem processPost_persisted_inv (wV wP : Bool) (s : WState) (p : Post)
    (h : s.persisted = s.idx) :
    (processPost wV wP s p).persisted = (processPost wV wP s p).idx := by
  unfold processPost save_hashes
  split
  · split
    · simp
    · simpa using h
  · simpa using h

theorem foldPosts_persisted_eq (wV wP : Bool) :
    ∀ (posts : List Post) (s : WState), s.persisted = s.idx →
      (posts.foldl (processPost wV wP) s).persisted =
        (posts.foldl (processPost wV wP) s).idx
  | [], _, h => h
  | p :: ps, s, h => by
    simp only [List.foldl_cons]
    exact foldPosts_persisted_eq wV wP ps _ (processPost_persisted_inv wV wP s p h)

/-! ### Closed forms of the loop when every hash is already known -/

theorem countP_map_const {α β : Type} (q : β → Bool) (g : α → β) (b : Bool)
    (hg : ∀ a, q (g a) = b) :
    ∀ l : List α, (l.map g).countP q = if b then l.length else 0
  | [] => by cases b <;> simp
  | a :: l => by
    rw [List.map_cons, List.countP_cons, countP_map_const q g b hg l, hg]
    cases b <;> simp

theorem map_comp_eq_replicate {α β γ : Type} (g : α → β) (c : γ) (q : β → γ)
    (hq : ∀ a, q (g a) = c) :
    ∀ l : List α, l.map (q ∘ g) = List.replicate l.length c
  | [] => rfl
  | a :: l => by
    simp only [List.map_cons, List.length_cons, List.replicate_succ,
      Function.comp_apply, hq, map_comp_eq_replicate g c q hq l]

theorem processPost_not_wanted (wV wP : Bool) (s : WState) (p : Post)
    (hw : postWanted wV wP p = false) :
    processPost wV wP s p = { s with sleeps := s.sleeps ++ [2] } := by
  simp [processPost, hw]

theorem processPost_fetch_fail (wV wP : Bool) (s : WState) (p : Post)
    (hw : postWanted wV wP p = true) (hf : p.fetch_ok = false) :
    processPost wV wP s p =
      { s with events := s.events ++ [Event.downloadingPost p.shortcode] } := by
  simp [processPost, hw, hf]

/-- Closed form of a wanted, successfully fetched post whose every file hash
is already in the index: the fetched files are added and then each deleted
again, one dup-skipped event is emitted per file, the index is unchanged
and flushed, and nothing else changes but the traces. -/
theorem processPost_all_dup (wV wP : Bool) (s : WState) (p : Post)
    (hw : postWanted wV wP p = true) (hf : p.fetch_ok = true)
    (hdup : ∀ f ∈ p.files, (lookupHash s.idx f.hash).isSome) :
    processPost wV wP s p =
      { s with
        persisted := s.idx,
        events := s.events ++ [Event.downloadingPost p.shortcode] ++
          p.files.map (fun _ => Event.dupSkipped p.shortcode) ++
          [Event.downloadProgress s.total_downloaded],
        ops := s.ops ++ p.files.map (fun f => Op.removeFile f.name) ++
          [Op.flushIdx],
        sleeps := s.sleeps ++ [2] } := by
  have hfold : p.files.foldl (processFile p.shortcode p.is_video)
      { s with events := s.events ++ [Event.downloadingPost p.shortcode],
               disk := p.files.map (fun f => DiskFile.fetched f.name) ++ s.disk } =
      processItems
        { s with events := s.events ++ [Event.downloadingPost p.shortcode],
                 disk := p.files.map (fun f => DiskFile.fetched f.name) ++ s.disk }
        (p.files.map (fun f => PIt.mk p.shortcode p.is_video f)) := by
    unfold processItems
    rw [List.foldl_map]
  have hdup2 : ∀ it ∈ p.files.map (fun f => PIt.mk p.shortcode p.is_video f),
      (lookupHash ({ s with
        events := s.events ++ [Event.downloadingPost p.shortcode],
        disk := p.files.map (fun f => DiskFile.fetched f.name) ++ s.disk } :
          WState).idx it.file.hash).isSome := by
    intro it hit
    rcases List.mem_map.mp hit with ⟨f, hf1, hf2⟩
    subst hf2
    exact hdup f hf1
  have hclosed := processItems_dup
    (p.files.map (fun f => PIt.mk p.shortcode p.is_video f)) _ hdup2
  have hdisk : (p.files.map (fun f => PIt.mk p.shortcode p.is_video f)).foldl
      (fun d it => eraseFile d (DiskFile.fetched it.file.name))
      (p.files.map (fun f => DiskFile.fetched f.name) ++ s.disk) = s.disk := by
    rw [List.foldl_map]
    exact erase_fetched_prefix p.files s.disk
  unfold processPost save_hashes
  simp only [hw, hf, if_true]
  rw [hfold, hclosed]
  simp only [hdisk, List.map_map]
  simp [Function.comp, List.map_const',
    map_comp_eq_replicate (fun f => PIt.mk p.shortcode p.is_video f)
      (Event.dupSkipped p.shortcode) (fun it => Event.dupSkipped it.sc)
      (fun _ => rfl) p.files]

/-- Second-run behaviour of the whole posts fold: when every processed file
hash is already in the index and the index was just loaded from its own
flush, the fold leaves index, persisted index, directory and counter
unchanged, emits exactly one dup-skipped event per processed file, performs
no rename and no insert, and deletes every re-fetched file. -/
theorem foldPosts_all_dup (wV wP : Bool) :
    ∀ (posts : List Post) (s : WState),
      ((processedFiles wV wP posts).all
        (fun f => (lookupHash s.idx f.hash).isSome)) = true →
      s.persisted = s.idx →
      (posts.foldl (processPost wV wP) s).idx = s.idx ∧
      (posts.foldl (processPost wV wP) s).persisted = s.persisted ∧
      (posts.foldl (processPost wV wP) s).disk = s.disk ∧
      (posts.foldl (processPost wV wP) s).total_downloaded =
        s.total_downloaded ∧
      ((posts.foldl (processPost wV wP) s).events).countP isDupEv =
        s.events.countP isDupEv + (processedFiles wV wP posts).length ∧
      ((posts.foldl (processPost wV wP) s).ops).countP isInsertOp =
        s.ops.countP isInsertOp ∧
      ((posts.foldl (processPost wV wP) s).ops).countP isRenameOp =
        s.ops.countP isRenameOp ∧
      (∀ op ∈ s.ops, op ∈ (posts.foldl (processPost wV wP) s).ops) ∧
      (∀ f ∈ processedFiles wV wP posts,
        Op.removeFile f.name ∈ (posts.foldl (processPost wV wP) s).ops)
  | [], s, _, hpe =>
    ⟨rfl, hpe.symm ▸ rfl, rfl, rfl, by simp [processedFiles], rfl, rfl,
      fun _ h => h, fun f hf => absurd hf (List.not_mem_nil _)⟩
  | p :: ps, s, hall, hpe => by
    have hpf : processedFiles wV wP (p :: ps) =
        (if postWanted wV wP p && p.fetch_ok then p.files else []) ++
          processedFiles wV wP ps := rfl
    rw [hpf] at hall
    rw [List.all_append] at hall
    have hall1 := (Bool.and_eq_true _ _).mp hall
    simp only [List.foldl_cons]
    by_cases hw : postWanted wV wP p = true
    · by_cases hfk : p.fetch_ok = true
      · have hwf : (postWanted wV wP p && p.fetch_ok) = true := by
          rw [hw, hfk]; rfl
        have hdup : ∀ f ∈ p.files, (lookupHash s.idx f.hash).isSome := by
          intro f hfm
          have := hall1.1
          rw [if_pos hwf] at this
          exact List.all_eq_true.mp this f hfm
        have hstep := processPost_all_dup wV wP s p hw hfk hdup
        rw [hstep]
        set s2 : WState :=
          { s with
            persisted := s.idx,
            events := s.events ++ [Event.downloadingPost p.shortcode] ++
              p.files.map (fun _ => Event.dupSkipped p.shortcode) ++
              [Event.downloadProgress s.total_downloaded],
            ops := s.ops ++ p.files.map (fun f => Op.removeFile f.name) ++
              [Op.flushIdx],
            sleeps := s.sleeps ++ [2] } with hs2
        have IH := foldPosts_all_dup wV wP ps s2
          (by rw [hs2]; exact hall1.2) (by rw [hs2])
        obtain ⟨i1, i2, i3, i4, i5, i6, i7, i8, i9⟩ := IH
        refine ⟨i1.trans (by rw [hs2]), i2.trans (by rw [hs2]; exact hpe.symm ▸ rfl),
          i3.trans (by rw [hs2]), i4.trans (by rw [hs2]), ?_, ?_, ?_, ?_, ?_⟩
        · rw [i5, hs2]
          simp only [List.countP_append]
          rw [countP_map_const isDupEv
            (fun _ : FetchedFile => Event.dupSkipped p.shortcode) true
            (fun _ => rfl) p.files]
          simp only [hpf]
          rw [if_pos hwf]
          simp [List.countP_cons, isDupEv]
          omega
        · rw [i6, hs2]
          simp only [List.countP_append]
          rw [countP_map_const isInsertOp
            (fun f : FetchedFile => Op.removeFile f.name) false
            (fun _ => rfl) p.files]
          simp [List.countP_cons, isInsertOp]
        · rw [i7, hs2]
          simp only [List.countP_append]
          rw [countP_map_const isRenameOp
            (fun f : FetchedFile => Op.removeFile f.name) false
            (fun _ => rfl) p.files]
          simp [List.countP_cons, isRenameOp]
        · intro op hop
          exact i8 op (by rw [hs2]; simp [hop])
        · intro f hfm
          rw [hpf] at hfm
          rcases List.mem_append.mp hfm with h1 | h1
          · rw [if_pos hwf] at h1
            have hmem : Op.removeFile f.name ∈ s2.ops := by
              rw [hs2]
              simp only [List.mem_append]
              exact Or.inl (Or.inr (List.mem_map.mpr ⟨f, h1, rfl⟩))
            exact i8 (Op.removeFile f.name) hmem
          · exact i9 f h1
      · have hfk2 : p.fetch_ok = false := by
          cases hfe : p.fetch_ok
          · rfl
          · exact absurd hfe hfk
        have hstep := processPost_fetch_fail wV wP s p hw hfk2
        rw [hstep]
        have hwf : (postWanted wV wP p && p.fetch_ok) = false := by
          rw [hfk2]; simp
        set s2 : WState :=
          { s with events := s.events ++ [Event.downloadingPost p.shortcode] }
          with hs2
        have IH := foldPosts_all_dup wV wP ps s2
          (by rw [hs2]; exact hall1.2) (by rw [hs2]; exact hpe)
        obtain ⟨i1, i2, i3, i4, i5, i6, i7, i8, i9⟩ := IH
        refine ⟨i1, i2, i3, i4, ?_, i6, i7, fun op hop => i8 op hop, ?_⟩
        · rw [i5, hs2]
          simp only [List.countP_append]
          simp only [hpf]
          rw [if_neg (by rw [hwf]; simp)]
          simp [List.countP_cons, isDupEv]
        · intro f hfm
          rw [hpf] at hfm
          rcases List.mem_append.mp hfm with h1 | h1
          · rw [if_neg (by rw [hwf]; simp)] at h1
            exact absurd h1 (List.not_mem_nil _)
          · exact i9 f h1
    · have hw2 : postWanted wV wP p = false := by
        cases hwe : postWanted wV wP p
        · rfl
        · exact absurd hwe hw
      have hstep := processPost_not_wanted wV wP s p hw2
      rw [hstep]
      have hwf : (postWanted wV wP p && p.fetch_ok) = false := by
        rw [hw2]; simp
      set s2 : WState := { s with sleeps := s.sleeps ++ [2] } with hs2
      have IH := foldPosts_all_dup wV wP ps s2
        (by rw [hs2]; exact hall1.2) (by rw [hs2]; exact hpe)
      obtain ⟨i1, i2, i3, i4, i5, i6, i7, i8, i9⟩ := IH
      refine ⟨i1, i2, i3, i4, ?_, i6, i7, fun op hop => i8 op hop, ?_⟩
      · rw [i5, hs2]
        simp only [hpf]
        rw [if_neg (by rw [hwf]; simp)]
        simp
      · intro f hfm
        rw [hpf] at hfm
        rcases List.mem_append.mp hfm with h1 | h1
        · rw [if_neg (by rw [hwf]; simp)] at h1
          exact absurd h1 (List.not_mem_nil _)
        · exact i9 f h1

/-! ### C2 -/

theorem instaRun_found_eq (kw msg : String) (posts : List Post) (wV wP : Bool)
    (running : Nat → Bool) (st : WState) :
    instaRun kw true (SearchResult.found msg posts) wV wP running st =
      instaFinally (instaPostsLoop wV wP running 0
        { st with
            total_downloaded := 0,
            events := (st.events ++ [Event.searching kw]) ++
              [Event.searchFound msg] } posts) := rfl

theorem instaLoop_true (wV wP : Bool) :
    ∀ (posts : List Post) (i : Nat) (s : WState),
      instaPostsLoop wV wP (fun _ => true) i s posts =
        posts.foldl (processPost wV wP) s
  | [], _, _ => rfl
  | p :: ps, i, s => by
    unfold instaPostsLoop
    simp only [if_true, List.foldl_cons]
    exact instaLoop_true wV wP ps (i + 1) (processPost wV wP s p)

theorem instaFinally_fields (s : WState) :
    (instaFinally s).idx = s.idx ∧ (instaFinally s).persisted = s.persisted ∧
    (instaFinally s).disk = s.disk ∧ (instaFinally s).ops = s.ops ∧
    (instaFinally s).total_downloaded = s.total_downloaded := by
  unfold instaFinally
  split <;> exact ⟨rfl, rfl, rfl, rfl, rfl⟩

/-- The first run of the job: a fresh worker over index-file content I0 and
directory D0, logged in, searching successfully and never cancelled. -/
def firstRun (kw msg : String) (posts : List Post) (wV wP : Bool)
    (I0 : HashIdx) (D0 : List DiskFile) : WState :=
  instaRun kw true (SearchResult.found msg posts) wV wP (fun _ => true)
    (freshWorkerState I0 I0 D0)

/-- The second run of the same job: a worker constructed over the index
file flushed by the first run and the directory the first run left, against
the same posts. -/
def secondRun (kw msg : String) (posts : List Post) (wV wP : Bool)
    (I0 : HashIdx) (D0 : List DiskFile) : WState :=
  instaRun kw true (SearchResult.found msg posts) wV wP (fun _ => true)
    (freshWorkerState
      (loadedIdx (load_hashes true flushedBytes
        (some (firstRun kw msg posts wV wP I0 D0).persisted)))
      (firstRun kw msg posts wV wP I0 D0).persisted
      (firstRun kw msg posts wV wP I0 D0).disk)

/-- C2: running the same job a second time against the same directory and
the same content source writes zero new files — the directory after the
second run equals the directory after the first; every item hash is found
in the index loaded when the second worker is constructed (the index the
first run flushed); the persisted index and hence its size are unchanged;
exactly one duplicate-skipped event is emitted per re-fetched file; the
second run performs no insert and no rename, and deletes every re-fetched
file. -/
theorem c2_second_run_idempotent (kw msg : String) (posts : List Post)
    (wV wP : Bool) (I0 : HashIdx) (D0 : List DiskFile) :
    ((processedFiles wV wP posts).all (fun f =>
      (lookupHash (firstRun kw msg posts wV wP I0 D0).persisted
        f.hash).isSome)) = true ∧
    (secondRun kw msg posts wV wP I0 D0).disk =
      (firstRun kw msg posts wV wP I0 D0).disk ∧
    (secondRun kw msg posts wV wP I0 D0).persisted =
      (firstRun kw msg posts wV wP I0 D0).persisted ∧
    (secondRun kw msg posts wV wP I0 D0).persisted.length =
      (firstRun kw msg posts wV wP I0 D0).persisted.length ∧
    ((secondRun kw msg posts wV wP I0 D0).events).countP isDupEv =
      (processedFiles wV wP posts).length ∧
    ((secondRun kw msg posts wV wP I0 D0).ops).countP isInsertOp = 0 ∧
    ((secondRun kw msg posts wV wP I0 D0).ops).countP isRenameOp = 0 ∧
    ((processedFiles wV wP posts).all (fun f =>
      decide (Op.removeFile f.name ∈
        (secondRun kw msg posts wV wP I0 D0).ops))) = true := by
  have hrun1 : firstRun kw msg posts wV wP I0 D0 =
      instaFinally (posts.foldl (processPost wV wP)
        ⟨I0, I0, D0, [Event.searching kw, Event.searchFound msg], [], 0, []⟩) := by
    unfold firstRun
    rw [instaRun_found_eq, instaLoop_true]
    rfl
  set L1 : WState := posts.foldl (processPost wV wP)
    ⟨I0, I0, D0, [Event.searching kw, Event.searchFound msg], [], 0, []⟩ with hL1
  have hPe : L1.persisted = L1.idx := foldPosts_persisted_eq wV wP posts _ rfl
  have hMem : ∀ f ∈ processedFiles wV wP posts,
      (lookupHash L1.idx f.hash).isSome :=
    fun f hf => foldPosts_mem_processed wV wP posts _ f hf
  have hff1 := instaFinally_fields L1
  have hr1pers : (firstRun kw msg posts wV wP I0 D0).persisted = L1.persisted := by
    rw [hrun1]; exact hff1.2.1
  have hr1disk : (firstRun kw msg posts wV wP I0 D0).disk = L1.disk := by
    rw [hrun1]; exact hff1.2.2.1
  have hrun2 : secondRun kw msg posts wV wP I0 D0 =
      instaFinally (posts.foldl (processPost wV wP)
        ⟨(firstRun kw msg posts wV wP I0 D0).persisted,
         (firstRun kw msg posts wV wP I0 D0).persisted,
         (firstRun kw msg posts wV wP I0 D0).disk,
         [Event.searching kw, Event.searchFound msg], [], 0, []⟩) := by
    unfold secondRun
    rw [instaRun_found_eq, instaLoop_true]
    rfl
  set s2 : WState :=
    ⟨(firstRun kw msg posts wV wP I0 D0).persisted,
     (firstRun kw msg posts wV wP I0 D0).persisted,
     (firstRun kw msg posts wV wP I0 D0).disk,
     [Event.searching kw, Event.searchFound msg], [], 0, []⟩ with hs2
  have hs2idx : s2.idx = L1.idx := by
    rw [hs2]
    show (firstRun kw msg posts wV wP I0 D0).persisted = L1.idx
    rw [hr1pers, hPe]
  have hall2 : ((processedFiles wV wP posts).all (fun f =>
      (lookupHash s2.idx f.hash).isSome)) = true := by
    apply List.all_eq_true.mpr
    intro f hf
    rw [hs2idx]
    exact hMem f hf
  have hdup := foldPosts_all_dup wV wP posts s2 hall2 (by rw [hs2])
  obtain ⟨i1, i2, i3, i4, i5, i6, i7, i8, i9⟩ := hdup
  set T2 : WState := posts.foldl (processPost wV wP) s2 with hT2
  have hff2 := instaFinally_fields T2
  refine ⟨?_, ?_, ?_, ?_, ?_, ?_, ?_, ?_⟩
  · apply List.all_eq_true.mpr
    intro f hf
    rw [hr1pers, hPe]
    exact hMem f hf
  · rw [hrun2, hr1disk]
    show (instaFinally T2).disk = L1.disk
    rw [hff2.2.2.1, i3, hs2, hr1disk]
  · rw [hrun2]
    show (instaFinally T2).persisted = _
    rw [hff2.2.1, i2, hs2]
  · rw [hrun2]
    show (instaFinally T2).persisted.length = _
    rw [hff2.2.1, i2, hs2]
  · rw [hrun2]
    show ((instaFinally T2).events).countP isDupEv = _
    rw [countP_events_instaFinally isDupEv false (fun _ => rfl) rfl, i5, hs2]
    simp [isDupEv]
  · rw [hrun2]
    show ((instaFinally T2).ops).countP isInsertOp = 0
    have : (instaFinally T2).ops = T2.ops := (instaFinally_fields T2).2.2.2.1
    rw [this, i6, hs2]
    rfl
  · rw [hrun2]
    show ((instaFinally T2).ops).countP isRenameOp = 0
    have : (instaFinally T2).ops = T2.ops := (instaFinally_fields T2).2.2.2.1
    rw [this, i7, hs2]
    rfl
  · apply List.all_eq_true.mpr
    intro f hf
    apply decide_eq_true
    rw [hrun2]
    show Op.removeFile f.name ∈ (instaFinally T2).ops
    have : (instaFinally T2).ops = T2.ops := (instaFinally_fields T2).2.2.2.1
    rw [this]
    exact i9 f hf

/-! ### C3: download_video under cancellation -/

theorem downloadChunks_all_true (running : Nat → Bool) (outPath : String) :
    ∀ (cs : List Nat) (i w : Nat) (d : List (String × Nat)),
      (∀ t, running t = true) →
      downloadChunks running outPath cs i w d = (true, (outPath, w + cs.sum) :: d)
  | [], i, w, d, _ => by simp [downloadChunks]
  | c :: cs, i, w, d, hr => by
    unfold downloadChunks
    rw [hr i]
    simp only [if_true]
    rw [downloadChunks_all_true running outPath cs (i + 1) (w + c) d hr]
    simp [List.sum_cons]
    omega

theorem downloadChunks_stop (running : Nat → Bool) (outPath : String) :
    ∀ (cs : List Nat) (j i w : Nat) (d : List (String × Nat)),
      j < cs.length →
      (∀ t, t < j → running (i + t) = true) →
      running (i + j) = false →
      downloadChunks running outPath cs i w d = (false, d)
  | [], j, _, _, _, hj, _, _ => absurd hj (by simp)
  | c :: cs, 0, i, w, d, _, _, hjf => by
    unfold downloadChunks
    rw [show i + 0 = i from rfl] at hjf
    simp [hjf]
  | c :: cs, j + 1, i, w, d, hj, hlt, hjf => by
    unfold downloadChunks
    have h0 : running i = true := by
      have := hlt 0 (Nat.succ_pos j)
      simpa using this
    rw [h0]
    simp only [if_true]
    exact downloadChunks_stop running outPath cs j (i + 1) (w + c) d
      (by simpa using hj)
      (fun t ht => by
        have := hlt (t + 1) (Nat.succ_lt_succ ht)
        rwa [show i + (t + 1) = i + 1 + t by omega] at this)
      (by rwa [show i + 1 + j = i + (j + 1) by omega])

/-- A fetch that is never cancelled writes the whole byte stream and leaves
the completed file on disk. -/
theorem download_video_complete (running : Nat → Bool) (chunks : List Nat)
    (outPath : String) (d : List (String × Nat))
    (hr : ∀ t, running t = true) :
    download_video running true chunks outPath d =
      (true, (outPath, chunks.sum) :: removePath outPath d) := by
  unfold download_video
  simp only [if_true]
  rw [downloadChunks_all_true running outPath chunks 0 0 _ hr]
  simp

/-- A fetch whose cancellation flag is observed cleared at chunk j (before
the stream ends) deletes the partial file and returns False: the output
path is gone from the directory. -/
theorem download_video_cancel (running : Nat → Bool) (chunks : List Nat)
    (outPath : String) (d : List (String × Nat)) (j : Nat)
    (hj : j < chunks.length)
    (hlt : ∀ t, t < j → running t = true) (hjf : running j = false) :
    download_video running true chunks outPath d =
      (false, removePath outPath d) := by
  unfold download_video
  simp only [if_true]
  exact downloadChunks_stop running outPath chunks j 0 0 _ hj
    (fun t ht => by simpa using hlt t ht) (by simpa using hjf)

/-- The directory contents after fully acquiring a list of items, leaves
first: each item truncates any stale entry of its path and adds its
completed file. -/
def pushAll : List DItem → List (String × Nat) → List (String × Nat)
  | [], d => d
  | it :: its, d => pushAll its ((it.path, it.chunks.sum) :: removePath it.path d)

theorem removePath_fst_subset (p q : String) (d : List (String × Nat))
    (hq : q ∈ (removePath p d).map Prod.fst) : q ∈ d.map Prod.fst := by
  rcases List.mem_map.mp hq with ⟨e, he, hq1⟩
  exact hq1 ▸ List.mem_map_of_mem Prod.fst (List.mem_of_mem_filter he)

theorem removePath_keep (p q : String) (hpq : q ≠ p) :
    ∀ d : List (String × Nat),
      q ∈ d.map Prod.fst → q ∈ (removePath p d).map Prod.fst := by
  intro d hq
  rcases List.mem_map.mp hq with ⟨e, he, hq1⟩
  subst hq1
  apply List.mem_map_of_mem Prod.fst
  exact List.mem_filter.mpr ⟨he, by simp [hpq]⟩

theorem pushAll_fst_subset (q : String) :
    ∀ (its : List DItem) (d : List (String × Nat)),
      q ∈ (pushAll its d).map Prod.fst →
      q ∈ its.map DItem.path ∨ q ∈ d.map Prod.fst
  | [], _, hq => Or.inr hq
  | it :: its, d, hq => by
    unfold pushAll at hq
    rcases pushAll_fst_subset q its _ hq with h | h
    · exact Or.inl (List.mem_cons_of_mem _ h)
    · rcases List.mem_cons.mp h with h1 | h1
      · exact Or.inl (by simp [h1])
      · exact Or.inr (removePath_fst_subset it.path q d h1)

theorem pushAll_fst_preserve (q : String) :
    ∀ (its : List DItem) (d : List (String × Nat)),
      q ∉ its.map DItem.path → q ∈ d.map Prod.fst →
      q ∈ (pushAll its d).map Prod.fst
  | [], _, _, hq => hq
  | it :: its, d, hni, hq => by
    have hqne : q ≠ it.path := by
      intro h
      exact hni (by simp [h])
    unfold pushAll
    apply pushAll_fst_preserve q its _ (fun h => hni (List.mem_cons_of_mem _ h))
    rw [List.map_cons]
    exact List.mem_cons_of_mem _ (removePath_keep it.path q hqne d hq)

theorem pushAll_fst_mem :
    ∀ (its : List DItem) (d : List (String × Nat)),
      (its.map DItem.path).Nodup →
      ∀ it ∈ its, it.path ∈ (pushAll its d).map Prod.fst
  | [], _, _, it, hit => absurd hit (List.not_mem_nil _)
  | a :: its, d, hnd, it, hit => by
    rw [List.map_cons, List.nodup_cons] at hnd
    rcases List.mem_cons.mp hit with h1 | h1
    · subst h1
      unfold pushAll
      apply pushAll_fst_preserve it.path its _ hnd.1
      simp
    · exact pushAll_fst_mem its _ hnd.2 it h1

theorem acquireItems_cons (stop : Nat × Nat) (i : Nat) (it : DItem)
    (rest : List DItem) (d : List (String × Nat)) (n : Nat) :
    acquireItems stop i (it :: rest) d n =
      if flagAt stop i 0 then
        acquireItems stop (i + 1) rest
          (download_video (flagAt stop i) true it.chunks it.path d).2
          (if (download_video (flagAt stop i) true it.chunks it.path d).1
            then n + 1 else n)
      else (d, n) := rfl

theorem acquireItems_step_complete (k j i : Nat) (hik : i < k) (it : DItem)
    (rest : List DItem) (d : List (String × Nat)) (n : Nat) :
    acquireItems (k, j) i (it :: rest) d n =
      acquireItems (k, j) (i + 1) rest
        ((it.path, it.chunks.sum) :: removePath it.path d) (n + 1) := by
  have hflag : flagAt (k, j) i 0 = true := by
    unfold flagAt
    simp only [decide_eq_true_eq]
    exact Or.inl hik
  have hrun : ∀ t, flagAt (k, j) i t = true := by
    intro t
    unfold flagAt
    simp only [decide_eq_true_eq]
    exact Or.inl hik
  rw [acquireItems_cons, if_pos hflag,
    download_video_complete (flagAt (k, j) i) it.chunks it.path d hrun]
  rfl

theorem acquireItems_before (k j : Nat) :
    ∀ (its R : List DItem) (i : Nat) (d : List (String × Nat)) (n : Nat),
      i + its.length ≤ k →
      acquireItems (k, j) i (its ++ R) d n =
        acquireItems (k, j) (i + its.length) R (pushAll its d) (n + its.length)
  | [], R, i, d, n, _ => by simp [pushAll]
  | it :: its, R, i, d, n, hik => by
    have hik1 : i < k := by
      simp only [List.length_cons] at hik
      omega
    show acquireItems (k, j) i (it :: (its ++ R)) d n = _
    rw [acquireItems_step_complete k j i hik1]
    simp only [List.length_cons]
    rw [show i + (its.length + 1) = i + 1 + its.length by omega,
      show n + (its.length + 1) = n + 1 + its.length by omega,
      show pushAll (it :: its) d =
        pushAll its ((it.path, it.chunks.sum) :: removePath it.path d) from rfl]
    exact acquireItems_before k j its R (i + 1) _ (n + 1)
      (by simp only [List.length_cons] at hik; omega)

theorem acquireItems_stopped (k j i : Nat) (hi : k < i) :
    ∀ (its : List DItem) (d : List (String × Nat)) (n : Nat),
      acquireItems (k, j) i its d n = (d, n)
  | [], _, _ => rfl
  | it :: its, d, n => by
    unfold acquireItems
    have hflag : flagAt (k, j) i 0 = false := by
      unfold flagAt
      simp only [decide_eq_false_iff_not]
      push_neg
      exact ⟨by omega, fun h => absurd h (by omega)⟩
    rw [hflag]
    simp

/-- C3: if the cancellation flag is cleared while the bytes of item k are being
written (observed at chunk j of item k, before the stream ends), the
partially written file of item k is deleted before the worker exits: no
file under the path of item k remains in the final directory, every item before k
is still on disk, and the caller receives the terminal events exactly once,
with a summary counting only the k items completed before the cancellation.
The per-item driver around download_video is modelled from the spec, since
src/vi.py contains no caller of download_video. -/
theorem c3_cancel_mid_write_cleanup (items : List DItem) (k j : Nat)
    (hk : k < items.length)
    (hj : j < (items.get ⟨k, hk⟩).chunks.length)
    (hnd : (items.map DItem.path).Nodup) :
    (items.get ⟨k, hk⟩).path ∉ (tiktokAcquire (k, j) items).1.map Prod.fst ∧
    (tiktokAcquire (k, j) items).2.1 = k ∧
    (tiktokAcquire (k, j) items).2.2 = [Event.summary k, Event.finished] ∧
    ((items.take k).all (fun it =>
      decide (it.path ∈ (tiktokAcquire (k, j) items).1.map Prod.fst))) = true := by
  have hdrop : items.drop k = items.get ⟨k, hk⟩ :: items.drop (k + 1) := by
    rw [List.get_eq_getElem]
    exact List.drop_eq_getElem_cons hk
  have hlen : (items.take k).length = k := by
    rw [List.length_take]
    omega
  have hacq : acquireItems (k, j) 0 items [] 0 =
      acquireItems (k, j) k (items.drop k) (pushAll (items.take k) []) k := by
    conv_lhs => rw [← List.take_append_drop k items]
    have := acquireItems_before k j (items.take k) (items.drop k) 0 [] 0
      (by rw [hlen]; omega)
    rw [this, hlen]
    simp
  have hmapsplit : items.map DItem.path =
      (items.take k).map DItem.path ++ (items.drop k).map DItem.path := by
    rw [← List.map_append, List.take_append_drop]
  rw [hmapsplit] at hnd
  obtain ⟨hnd1, hnd2, hdisj⟩ := List.nodup_append.mp hnd
  have hk_in_drop : (items.get ⟨k, hk⟩).path ∈ (items.drop k).map DItem.path := by
    rw [hdrop, List.map_cons]
    exact List.mem_cons_self _ _
  have hk_not_take :
      (items.get ⟨k, hk⟩).path ∉ (items.take k).map DItem.path :=
    fun hmem => hdisj hmem hk_in_drop
  have hknotD : (items.get ⟨k, hk⟩).path ∉
      (pushAll (items.take k) []).map Prod.fst := by
    intro hmem
    rcases pushAll_fst_subset _ (items.take k) [] hmem with h | h
    · exact hk_not_take h
    · simp at h
  have htake_mem : ∀ it ∈ items.take k,
      it.path ∈ (pushAll (items.take k) []).map Prod.fst :=
    pushAll_fst_mem (items.take k) [] hnd1
  have htake_ne : ∀ it ∈ items.take k, it.path ≠ (items.get ⟨k, hk⟩).path := by
    intro it hit heq
    exact hk_not_take (heq ▸ List.mem_map_of_mem DItem.path hit)
  by_cases hj0 : 0 < j
  · -- cancellation observed at chunk j of item k, mid-stream
    have hflagk : flagAt (k, j) k 0 = true := by
      unfold flagAt
      simp only [decide_eq_true_eq]
      exact Or.inr ⟨trivial, hj0⟩
    have hcanc := download_video_cancel (flagAt (k, j) k)
      (items.get ⟨k, hk⟩).chunks (items.get ⟨k, hk⟩).path
      (pushAll (items.take k) []) j hj
      (fun t ht => by
        unfold flagAt
        simp only [decide_eq_true_eq]
        exact Or.inr ⟨trivial, ht⟩)
      (by
        unfold flagAt
        simp only [decide_eq_false_iff_not]
        omega)
    have hr : acquireItems (k, j) 0 items [] 0 =
        (removePath (items.get ⟨k, hk⟩).path (pushAll (items.take k) []), k) := by
      rw [hacq, hdrop, acquireItems_cons, if_pos hflagk, hcanc]
      exact acquireItems_stopped k j (k + 1) (by omega) _ _ _
    have hfin : tiktokAcquire (k, j) items =
        (removePath (items.get ⟨k, hk⟩).path (pushAll (items.take k) []), k,
          [Event.summary k, Event.finished]) := by
      simp only [tiktokAcquire, hr]
    rw [hfin]
    refine ⟨?_, rfl, rfl, ?_⟩
    · intro hmem
      exact hknotD (removePath_fst_subset _ _ _ hmem)
    · apply List.all_eq_true.mpr
      intro it hit
      apply decide_eq_true
      exact removePath_keep _ _ (htake_ne it hit) _ (htake_mem it hit)
  · -- the flag is already cleared at the check before item k starts
    have hflagk : flagAt (k, j) k 0 = false := by
      unfold flagAt
      simp only [decide_eq_false_iff_not]
      omega
    have hr : acquireItems (k, j) 0 items [] 0 =
        (pushAll (items.take k) [], k) := by
      rw [hacq, hdrop, acquireItems_cons, if_neg (by rw [hflagk]; simp)]
    have hfin : tiktokAcquire (k, j) items =
        (pushAll (items.take k) [], k, [Event.summary k, Event.finished]) := by
      simp only [tiktokAcquire, hr]
    rw [hfin]
    refine ⟨hknotD, rfl, rfl, ?_⟩
    apply List.all_eq_true.mpr
    intro it hit
    apply decide_eq_true
    exact htake_mem it hit

/-- Witness for c3_cancel_mid_write_cleanup: two items, cancellation at
chunk 1 of item 1 (its stream has 2 chunks). -/
theorem c3_witness :
    (1 < ([⟨"a", [1]⟩, ⟨"b", [2, 3]⟩] : List DItem).length) ∧
    (([⟨"a", [1]⟩, ⟨"b", [2, 3]⟩] : List DItem).map DItem.path).Nodup ∧
    ((([⟨"a", [1]⟩, ⟨"b", [2, 3]⟩] : List DItem).get
        ⟨1, by decide⟩).path ∉
      (tiktokAcquire (1, 1) [⟨"a", [1]⟩, ⟨"b", [2, 3]⟩]).1.map Prod.fst ∧
     (tiktokAcquire (1, 1) [⟨"a", [1]⟩, ⟨"b", [2, 3]⟩]).2.1 = 1 ∧
     (tiktokAcquire (1, 1) [⟨"a", [1]⟩, ⟨"b", [2, 3]⟩]).2.2 =
       [Event.summary 1, Event.finished] ∧
     ((([⟨"a", [1]⟩, ⟨"b", [2, 3]⟩] : List DItem).take 1).all (fun it =>
       decide (it.path ∈
         (tiktokAcquire (1, 1) [⟨"a", [1]⟩, ⟨"b", [2, 3]⟩]).1.map Prod.fst)))
       = true) :=
  ⟨by decide, by decide,
    c3_cancel_mid_write_cleanup [⟨"a", [1]⟩, ⟨"b", [2, 3]⟩] 1 1
      (by decide) (by decide) (by decide)⟩

end Instatik
